import Mathlib

/-!
# MPEG-2 TS packager: `Segment` and `SampleBuffer`

A shallow embedding of `src/projects/modules/containers/mpegts/mpegts_packager.h`
and a verification of the properties its specification states about the two
classes defined in that header.

* `std::queue<T>` is a `List T`, front of the queue first.
* `uint64_t` fields are `Nat`; every C++ arithmetic operation on them is reduced
  modulo `2^64` (`add64`, `sub64`).
* A method that mutates the object returns the new object.
* The double-precision arithmetic of `GetSampleDurationUs` is IEEE 754 binary64 with
  round-to-nearest, ties-to-even, on exact fractions of natural numbers
  (`Binary64`).
-/

namespace mpegts

/-! ## Machine integers -/

/-- Number of values of a `uint64_t`. -/
def U64 : Nat := 2 ^ 64

/-- The C++ `a + b` (also `+=`, `++`) on `uint64_t`. -/
def add64 (a b : Nat) : Nat := (a + b) % U64

/-- The C++ `a - b` (also `-=`, `--`) on `uint64_t`: wraps around below zero. -/
def sub64 (a b : Nat) : Nat := (a + (U64 - b % U64)) % U64

/-! ## Collaborators that the header only includes -/

/-- Modelled from the spec: `ov::Data` (declared outside this header) is the byte
blob of the specification, "one contiguous byte blob" whose bytes keep their
order; a byte is a natural number. -/
abbrev Data := List Nat

/-- Modelled from the spec: `ov::Data::Append`, which the header calls on the
segment payload; appending keeps the existing bytes and puts the new bytes
after them ("payloads are concatenated ... in FIFO order"). -/
def Data.Append (self data : Data) : Data := self ++ data

/-- The file-system collaborator: `ov::LoadFromFile(path)` gives the bytes of the
file, or nothing (`nullptr`) when the read fails. -/
structure FileSystem where
  LoadFromFile : String → Option Data

/-- The part of `MediaPacket` that the header reads: `GetDuration()`, an `int64_t`. -/
structure MediaPacket where
  duration : Int
deriving DecidableEq, Repr

/-- The part of `MediaTrack` that the header reads.  The time base enters the code
only through the double-precision expression
`static_cast<double>(duration) * 1000000.0 / GetTimescale()`; the field `scaleToUs`
is that expression as a function of the packet duration, already converted to an
integer.  `binary64Track` below is the track that a given integer time scale
makes. -/
structure MediaTrack where
  scaleToUs : Int → Nat

/-! ## `class Segment` -/

/-- The private fields of `class Segment`. A null `_data` is `none`. -/
structure Segment where
  _segment_id : Nat
  _first_dts : Int
  _duration_us : Nat
  _url : String
  _file_path : String
  _data : Option Data
  _is_data_in_memory : Bool
  _is_data_in_file : Bool
deriving DecidableEq, Repr

namespace Segment

/-- The constructor `Segment(segment_id, first_dts, duration_us)`; the remaining
fields take their default member initialisers. -/
def new (segment_id : Nat) (first_dts : Int) (duration_us : Nat) : Segment :=
  { _segment_id := segment_id, _first_dts := first_dts, _duration_us := duration_us,
    _url := "", _file_path := "", _data := none,
    _is_data_in_memory := false, _is_data_in_file := false }

/-- The method `AddPacketData(data)`: allocates an empty buffer when `_data` is null,
appends, sets the in-memory flag, returns `true`. -/
def AddPacketData (self : Segment) (data : Data) : Bool × Segment :=
  let buf : Data := match self._data with
    | none => []
    | some d => d
  (true, { self with _data := some (buf.Append data), _is_data_in_memory := true })

def GetId (self : Segment) : Nat := self._segment_id

def GetNumber (self : Segment) : Nat := self._segment_id

def GetUrl (self : Segment) : String := self._url

def SetUrl (self : Segment) (url : String) : Segment := { self with _url := url }

def GetFirstTimestamp (self : Segment) : Int := self._first_dts

def GetDurationUs (self : Segment) : Nat := self._duration_us

def GetFilePath (self : Segment) : String := self._file_path

def SetFilePath (self : Segment) (file_path : String) : Segment :=
  { self with _file_path := file_path, _is_data_in_file := true }

def ResetData (self : Segment) : Segment :=
  { self with _data := none, _is_data_in_memory := false }

def IsDataInMemory (self : Segment) : Bool := self._is_data_in_memory

def IsDataInFile (self : Segment) : Bool := self._is_data_in_file

end Segment

/-- What one call of `Segment::GetData` does: the returned pointer (`none` is
`nullptr`), the paths it passed to `ov::LoadFromFile`, the paths for which it
logged a load failure with `loge`, and the segment after the call (the method
is `const`). -/
structure GetDataResult where
  data : Option Data
  loaded : List String
  logged : List String
  segment : Segment
deriving DecidableEq, Repr

/-- The method `Segment::GetData()`. -/
def Segment.GetData (fs : FileSystem) (self : Segment) : GetDataResult :=
  if self._is_data_in_memory then
    { data := self._data, loaded := [], logged := [], segment := self }
  else if self._is_data_in_file then
    let data := fs.LoadFromFile self._file_path
    match data with
    | none => { data := none, loaded := [self._file_path], logged := [self._file_path],
                segment := self }
    | some d => { data := some d, loaded := [self._file_path], logged := [], segment := self }
  else
    { data := none, loaded := [], logged := [], segment := self }

/-- The mutating operations of a `Segment`. -/
inductive SegmentOp where
  | AddPacketData (data : Data)
  | SetFilePath (file_path : String)
  | ResetData
  | SetUrl (url : String)
deriving DecidableEq, Repr

/-- One mutating call on a segment. -/
def Segment.apply (self : Segment) : SegmentOp → Segment
  | .AddPacketData data => (self.AddPacketData data).2
  | .SetFilePath file_path => self.SetFilePath file_path
  | .ResetData => self.ResetData
  | .SetUrl url => self.SetUrl url

/-- The operation is an `AddPacketData` call. -/
def SegmentOp.isAddPacketData : SegmentOp → Bool
  | .AddPacketData _ => true
  | _ => false

/-- A sequence of mutating calls, first call first. -/
def Segment.applyAll (self : Segment) (ops : List SegmentOp) : Segment :=
  ops.foldl Segment.apply self

/-! ## `struct Sample` and `class SampleBuffer` -/

/-- The struct `Sample` with both pointers set.  The null sample
`Sample(nullptr, nullptr)` that `PopSample` and `GetSample` return on an empty
queue is `none : Option Sample`. -/
structure Sample where
  media_packet : MediaPacket
  ts_packet_data : Data
deriving DecidableEq, Repr

/-- The nested struct `SampleBuffer::SegmentBoundary`. -/
structure SegmentBoundary where
  sample_count : Nat
  duration_us : Nat
deriving DecidableEq, Repr

/-- The private fields of `class SampleBuffer`. -/
structure SampleBuffer where
  _track : MediaTrack
  _samples : List Sample
  _segment_boundaries : List SegmentBoundary
  _current_samples_count : Nat
  _current_samples_duration_us : Nat
  _total_available_duration_us : Nat
  _total_available_count : Nat
  _total_consumed_samples_count : Nat
  _total_consumed_samples_duration_us : Nat

namespace SampleBuffer

/-- The constructor `SampleBuffer(track)`: empty queues, all counters zero. -/
def new (track : MediaTrack) : SampleBuffer :=
  { _track := track, _samples := [], _segment_boundaries := [],
    _current_samples_count := 0, _current_samples_duration_us := 0,
    _total_available_duration_us := 0, _total_available_count := 0,
    _total_consumed_samples_count := 0, _total_consumed_samples_duration_us := 0 }

def GetTrack (self : SampleBuffer) : MediaTrack := self._track

/-- The method `GetSampleDurationUs(sample)`: the double-precision quotient held by
the track, returned as a `uint64_t` (hence below `2^64`). -/
def GetSampleDurationUs (self : SampleBuffer) (sample : Sample) : Nat :=
  self.GetTrack.scaleToUs sample.media_packet.duration % U64

/-- The method `AddSample(sample)`; the C++ method returns `true`. -/
def AddSample (self : SampleBuffer) (sample : Sample) : SampleBuffer :=
  let duration_us := self.GetSampleDurationUs sample
  { self with
    _samples := self._samples ++ [sample],
    _current_samples_count := add64 self._current_samples_count 1,
    _current_samples_duration_us := add64 self._current_samples_duration_us duration_us,
    _total_available_count := add64 self._total_available_count 1,
    _total_available_duration_us := add64 self._total_available_duration_us duration_us }

def GetCurrentDurationUs (self : SampleBuffer) : Nat := self._current_samples_duration_us

def HasSegmentBoundary (self : SampleBuffer) : Bool := !self._segment_boundaries.isEmpty

def GetSegmentBoundaryCount (self : SampleBuffer) : Nat := self._segment_boundaries.length

def MarkSegmentBoundary (self : SampleBuffer) : SampleBuffer :=
  let boundary : SegmentBoundary :=
    { sample_count := self._current_samples_count,
      duration_us := self._current_samples_duration_us }
  { self with
    _segment_boundaries := self._segment_boundaries ++ [boundary],
    _current_samples_count := 0,
    _current_samples_duration_us := 0 }

def GetDurationUntilSegmentBoundaryUs (self : SampleBuffer) : Nat :=
  match self._segment_boundaries with
  | [] => 0
  | front :: _ => front.duration_us

def GetTotalAvailableDurationUs (self : SampleBuffer) : Nat := self._total_available_duration_us

def IsEmpty (self : SampleBuffer) : Bool := self._samples.isEmpty

/-- The method `PopSample()`: the returned sample (`none` is the null sample) and the
buffer after the call. -/
def PopSample (self : SampleBuffer) : Option Sample × SampleBuffer :=
  match self._samples with
  | [] => (none, self)
  | sample :: rest =>
    let sample_duration_us := self.GetSampleDurationUs sample
    (some sample,
     { self with
       _samples := rest,
       _current_samples_count := sub64 self._current_samples_count 1,
       _current_samples_duration_us := sub64 self._current_samples_duration_us sample_duration_us,
       _total_available_count := sub64 self._total_available_count 1,
       _total_available_duration_us := sub64 self._total_available_duration_us sample_duration_us,
       _total_consumed_samples_count := add64 self._total_consumed_samples_count 1,
       _total_consumed_samples_duration_us :=
         add64 self._total_consumed_samples_duration_us sample_duration_us })

def GetSample (self : SampleBuffer) : Option Sample := self._samples.head?

/-- What the `for` loop of `PopSamplesUntilSegmentBoundary` leaves behind. -/
structure LoopResult where
  samples : List Sample
  _samples : List Sample
  broke : Bool
deriving DecidableEq, Repr

/-- The `for` loop of `PopSamplesUntilSegmentBoundary` with `n` iterations still to
run, `queue` the sample queue and `samples` the vector filled so far.  `broke`
records that the loop left through the `break` of the branch commented
"would not happen". -/
def popLoop : Nat → List Sample → List Sample → LoopResult
  | 0, queue, samples => { samples := samples, _samples := queue, broke := false }
  | _ + 1, [], samples => { samples := samples, _samples := [], broke := true }
  | n + 1, sample :: queue, samples => popLoop n queue (samples ++ [sample])

/-- The method `PopSamplesUntilSegmentBoundary()`: the returned vector and the buffer
after the call.  `front()` of an empty boundary queue is undefined in C++; the
model gives `none` there. -/
def PopSamplesUntilSegmentBoundary (self : SampleBuffer) : Option (List Sample × SampleBuffer) :=
  match self._segment_boundaries with
  | [] => none
  | boundary :: rest =>
    let r := popLoop boundary.sample_count self._samples []
    some (r.samples,
      { self with
        _segment_boundaries := rest,
        _samples := r._samples,
        _total_consumed_samples_count :=
          add64 self._total_consumed_samples_count boundary.sample_count,
        _total_consumed_samples_duration_us :=
          add64 self._total_consumed_samples_duration_us boundary.duration_us,
        _total_available_duration_us :=
          sub64 self._total_available_duration_us boundary.duration_us,
        _total_available_count := sub64 self._total_available_count boundary.sample_count })

def GetTotalConsumedDurationUs (self : SampleBuffer) : Nat :=
  self._total_consumed_samples_duration_us

end SampleBuffer

/-! ## Sequences of calls on a `SampleBuffer` -/

/-- The public mutating operations of a `SampleBuffer`. -/
inductive Op where
  | AddSample (sample : Sample)
  | MarkSegmentBoundary
  | PopSample
  | PopSamplesUntilSegmentBoundary
deriving DecidableEq, Repr

/-- The operation is one of `AddSample`, `MarkSegmentBoundary`,
`PopSamplesUntilSegmentBoundary`. -/
def Op.notPopSample : Op → Bool
  | .PopSample => false
  | _ => true

/-- One call: the buffer after it and, for `PopSamplesUntilSegmentBoundary`, the
returned vector.  `PopSamplesUntilSegmentBoundary` without a pending boundary is
not a permitted call and gives `none`. -/
def step (b : SampleBuffer) : Op → Option (SampleBuffer × Option (List Sample))
  | .AddSample sample => some (b.AddSample sample, none)
  | .MarkSegmentBoundary => some (b.MarkSegmentBoundary, none)
  | .PopSample => some (b.PopSample.2, none)
  | .PopSamplesUntilSegmentBoundary =>
    match b.PopSamplesUntilSegmentBoundary with
    | none => none
    | some (samples, b') => some (b', some samples)

/-- A sequence of calls, first call first: the final buffer and the vectors returned
by the calls of `PopSamplesUntilSegmentBoundary`, first call first. -/
def run (b : SampleBuffer) : List Op → Option (SampleBuffer × List (List Sample))
  | [] => some (b, [])
  | op :: ops =>
    match step b op with
    | none => none
    | some (b', out) =>
      match run b' ops with
      | none => none
      | some (b'', outs) => some (b'', out.toList ++ outs)

/-- The samples added between consecutive `MarkSegmentBoundary` calls of a call
sequence, one list per mark, in call order; `cur` holds the samples added before
the sequence and after the last mark before it. -/
def markedGroups (cur : List Sample) : List Op → List (List Sample)
  | [] => []
  | .AddSample sample :: ops => markedGroups (cur ++ [sample]) ops
  | .MarkSegmentBoundary :: ops => cur :: markedGroups [] ops
  | _ :: ops => markedGroups cur ops

/-- The samples added after the last `MarkSegmentBoundary` call of a call sequence. -/
def sinceLastMark (cur : List Sample) : List Op → List Sample
  | [] => cur
  | .AddSample sample :: ops => sinceLastMark (cur ++ [sample]) ops
  | .MarkSegmentBoundary :: ops => sinceLastMark [] ops
  | _ :: ops => sinceLastMark cur ops

/-- The number of `AddSample` calls in a call sequence. -/
def addCount : List Op → Nat
  | [] => 0
  | .AddSample _ :: ops => addCount ops + 1
  | _ :: ops => addCount ops

/-- A track on which a packet duration `d >= 0` lasts `d` microseconds.  This is what
the time scale 1000000 gives for the durations used with it below
(`binary64Track_1000000_eq_usTrack`). -/
def usTrack : MediaTrack := { scaleToUs := Int.toNat }

/-- A sample of the given duration with an empty payload. -/
def sampleOf (duration : Int) : Sample :=
  { media_packet := { duration := duration }, ts_packet_data := [] }

/-- The sample queue stays within the capacity of a `std::queue` (its size is a
64-bit `size_t`) before, between and after the calls of a call sequence. -/
def withinCapacity (b : SampleBuffer) : List Op → Bool
  | [] => decide (b._samples.length < U64)
  | op :: ops =>
    decide (b._samples.length < U64) &&
      match step b op with
      | none => true
      | some (b', _) => withinCapacity b' ops

/-- The relation between a buffer and the samples it was given: `pending` lists, for
every boundary marker still in the queue (oldest first), the samples added before
that mark and after the one before it; `cur` lists the samples added after the
last mark. -/
structure Tracks (b : SampleBuffer) (pending : List (List Sample)) (cur : List Sample) : Prop where
  samples_eq : b._samples = pending.flatten ++ cur
  counts_eq : b._segment_boundaries.map SegmentBoundary.sample_count = pending.map List.length
  current_eq : b._current_samples_count = cur.length

/-- The markers and the since-last-mark counter never count more samples than the
queue holds. -/
def CountsFit (b : SampleBuffer) : Prop :=
  (b._segment_boundaries.map SegmentBoundary.sample_count).sum + b._current_samples_count
    ≤ b._samples.length

/-! ## Concrete buffers and segments -/

/-- A call sequence with two marks, the first of them already popped. -/
def exampleOps : List Op :=
  [.AddSample (sampleOf 5), .AddSample (sampleOf 7), .MarkSegmentBoundary,
   .AddSample (sampleOf 9), .MarkSegmentBoundary, .PopSamplesUntilSegmentBoundary,
   .AddSample (sampleOf 11)]

/-- The buffer that `exampleOps` leaves behind. -/
def exampleBuffer : SampleBuffer :=
  { _track := usTrack, _samples := [sampleOf 9, sampleOf 11],
    _segment_boundaries := [{ sample_count := 1, duration_us := 9 }],
    _current_samples_count := 1, _current_samples_duration_us := 11,
    _total_available_duration_us := 20, _total_available_count := 2,
    _total_consumed_samples_count := 2, _total_consumed_samples_duration_us := 12 }

/-- A buffer whose only marked sample was taken out with `PopSample`. -/
def poppedBuffer : SampleBuffer :=
  (((SampleBuffer.new usTrack).AddSample (sampleOf 5)).MarkSegmentBoundary).PopSample.2

/-- A buffer with two pending boundaries: samples of 5 us, a mark, a sample of 7 us,
a mark. -/
def twoMarksBuffer : SampleBuffer :=
  ((((SampleBuffer.new usTrack).AddSample (sampleOf 5)).MarkSegmentBoundary).AddSample
    (sampleOf 7)).MarkSegmentBoundary

/-- Four samples of `2^62` us each: their durations add up to `2^64`. -/
def longSamples : List Sample := List.replicate 4 (sampleOf (2 ^ 62))

/-- A file system in which every load fails. -/
def failingFs : FileSystem := { LoadFromFile := fun _ => none }

/-- A file system that holds the bytes `[1, 2, 3]` at `seg_7.ts` and nothing else. -/
def oneFileFs : FileSystem :=
  { LoadFromFile := fun path => if path = "seg_7.ts" then some [1, 2, 3] else none }

/-- A freshly constructed segment. -/
def freshSegment : Segment := Segment.new 7 0 6000000

/-- A segment that went to disk: `SetFilePath`, no payload in memory. -/
def onDiskSegment : Segment := freshSegment.SetFilePath "seg_7.ts"

/-! ## Durations along a call sequence -/

/-- All samples given to `AddSample` in a call sequence, in call order. -/
def addedSamples : List Op → List Sample
  | [] => []
  | .AddSample sample :: ops => sample :: addedSamples ops
  | _ :: ops => addedSamples ops

/-- The sum of `GetSampleDurationUs` over a list of samples of a track, as a natural
number (no wrap-around). -/
def totalDurationUs (track : MediaTrack) (samples : List Sample) : Nat :=
  (samples.map (SampleBuffer.new track).GetSampleDurationUs).sum

/-- The relation `Tracks` together with the durations: every pending marker records
the duration of its group, the since-last-mark counter the duration of `cur`, and
the available total the duration of the queue, all modulo `2^64`. -/
structure DurTracks (track : MediaTrack) (b : SampleBuffer) (pending : List (List Sample))
    (cur : List Sample) : Prop where
  tracks : Tracks b pending cur
  track_eq : b._track = track
  durations_eq : b._segment_boundaries.map SegmentBoundary.duration_us =
    pending.map (fun group => totalDurationUs track group % U64)
  current_duration_eq : b._current_samples_duration_us = totalDurationUs track cur % U64
  available_eq : b._total_available_duration_us = totalDurationUs track b._samples % U64

/-- The calls `AddPacketData(d1)`, ..., `AddPacketData(dn)` in that order: the values
returned by the calls and the segment after the last one. -/
def Segment.AddPacketDataAll (self : Segment) : List Data → List Bool × Segment
  | [] => ([], self)
  | data :: rest =>
    let r := self.AddPacketData data
    let rs := Segment.AddPacketDataAll r.2 rest
    (r.1 :: rs.1, rs.2)

/-- A call sequence that uses `PopSample` while a marker is pending. -/
def mixedOps : List Op :=
  [.AddSample (sampleOf 5), .MarkSegmentBoundary, .AddSample (sampleOf 1),
   .AddSample (sampleOf 7), .PopSample, .PopSamplesUntilSegmentBoundary]

/-- The buffer that `mixedOps` leaves behind: one sample of 7 us queued, 3 us
available. -/
def mixedBuffer : SampleBuffer :=
  { _track := usTrack, _samples := [sampleOf 7], _segment_boundaries := [],
    _current_samples_count := 1, _current_samples_duration_us := 3,
    _total_available_duration_us := 3, _total_available_count := 1,
    _total_consumed_samples_count := 2, _total_consumed_samples_duration_us := 10 }

/-- The buffer `exampleBuffer` after `PopSamplesUntilSegmentBoundary`. -/
def exampleBufferPopped : SampleBuffer :=
  { _track := usTrack, _samples := [sampleOf 11], _segment_boundaries := [],
    _current_samples_count := 1, _current_samples_duration_us := 11,
    _total_available_duration_us := 11, _total_available_count := 1,
    _total_consumed_samples_count := 3, _total_consumed_samples_duration_us := 21 }

/-- A buffer whose pending marker records two samples while one is queued: two
samples, a mark, then `PopSample`. -/
def shortBuffer : SampleBuffer :=
  ((((SampleBuffer.new usTrack).AddSample (sampleOf 5)).AddSample
    (sampleOf 7)).MarkSegmentBoundary).PopSample.2

/-- A segment whose payload `[9, 9]` was released by `ResetData`. -/
def resetSegment : Segment := (freshSegment.AddPacketData [9, 9]).2.ResetData

/-! ## The double-precision arithmetic of `GetSampleDurationUs` -/

/-- A finite IEEE 754 binary64 value, `mant * 2^exp` with a sign.  The exponent range
is not modelled: for a packet duration (an `int64_t`) and a time scale that is a
positive integer, every value that `GetSampleDurationUs` computes is far inside
it. -/
structure Binary64 where
  negative : Bool
  mant : Nat
  exp : Int
deriving DecidableEq, Repr

namespace Binary64

/-- Numerator of the magnitude as a fraction. -/
def num (x : Binary64) : Nat := x.mant * 2 ^ x.exp.toNat

/-- Denominator of the magnitude as a fraction, a power of two. -/
def den (x : Binary64) : Nat := 2 ^ (-x.exp).toNat

/-- The integer nearest to `n / d`, the even one of the two when `n / d` lies half
way between them (the rounding mode round-to-nearest, ties-to-even). -/
def roundHalfEven (n d : Nat) : Nat :=
  if 2 * (n % d) < d then n / d
  else if d < 2 * (n % d) then n / d + 1
  else if (n / d) % 2 = 0 then n / d
  else n / d + 1

/-- Halving `n` until it is below 2, at most `fuel` times: the number of halvings. -/
def log2Aux : Nat → Nat → Nat
  | 0, _ => 0
  | fuel + 1, n => if n < 2 then 0 else log2Aux fuel (n / 2) + 1

/-- The position of the leading bit of a positive `n`: `2^(log2 n) <= n < 2^(log2 n + 1)`. -/
def log2 (n : Nat) : Nat := log2Aux n n

/-- The integer `l` with `2^l <= n / d < 2^(l+1)`, for positive `n` and `d`. -/
def floorLog2 (n d : Nat) : Int :=
  if d ≤ n then (log2 (n / d) : Int) else -((log2 ((d - 1) / n) : Int) + 1)

/-- The binary64 value nearest to `n / d` with the given sign: the fraction is
scaled to 53 significant bits and rounded to nearest, ties to even. -/
def nearest (negative : Bool) (n d : Nat) : Binary64 :=
  if n = 0 then { negative := negative, mant := 0, exp := 0 }
  else
    let e := floorLog2 n d - 52
    { negative := negative,
      mant := roundHalfEven (n * 2 ^ (-e).toNat) (d * 2 ^ e.toNat),
      exp := e }

/-- The double holding exactly the natural number `n` (used for numbers that
binary64 represents: the literal `1000000.0` and an integer time scale). -/
def ofNatExact (n : Nat) : Binary64 := { negative := false, mant := n, exp := 0 }

/-- The conversion `static_cast<double>(i)` of an `int64_t`. -/
def ofInt (i : Int) : Binary64 := nearest (decide (i < 0)) i.natAbs 1

/-- The product `x * y` of two doubles, correctly rounded. -/
def mul (x y : Binary64) : Binary64 :=
  nearest (x.negative != y.negative) (x.num * y.num) (x.den * y.den)

/-- The quotient `x / y` of two doubles, correctly rounded; `y` is not zero. -/
def div (x y : Binary64) : Binary64 :=
  nearest (x.negative != y.negative) (x.num * y.den) (x.den * y.num)

/-- The conversion of a double to `uint64_t`: the value truncated toward zero.  The
conversion is undefined in C++ when the truncated value is negative or `2^64`
or more; the model gives `none` there. -/
def toUInt64 (x : Binary64) : Option Nat :=
  let q := x.num / x.den
  if x.negative && decide (1 ≤ q) then none
  else if 2 ^ 64 ≤ q then none
  else some q

end Binary64

/-- The expression `static_cast<double>(duration) * 1000000.0 / timescale` of
`GetSampleDurationUs`, converted to the `uint64_t` that the method returns, for a
track whose `GetTimescale()` is the double with the integer value `timescale`.
Division by a zero time scale gives an infinity or a NaN, whose conversion is
undefined: `none`. -/
def scaleToUsBinary64 (timescale : Nat) (duration : Int) : Option Nat :=
  if timescale = 0 then none
  else
    (((Binary64.ofInt duration).mul (Binary64.ofNatExact 1000000)).div
      (Binary64.ofNatExact timescale)).toUInt64

/-- The track whose time scale is the integer `timescale`: its `scaleToUs` is the
double-precision expression of `GetSampleDurationUs` (0 where the conversion is
undefined). -/
def binary64Track (timescale : Nat) : MediaTrack :=
  { scaleToUs := fun duration => (scaleToUsBinary64 timescale duration).getD 0 }

open SampleBuffer

/-! ## Auxiliary facts -/

theorem sub64_cast (a c : Nat) : ((sub64 a c : Nat) : Int) = ((a : Int) - (c : Int)) % (2 ^ 64 : Int) := by
  unfold sub64 U64
  omega

theorem add64_le (a c : Nat) : add64 a c ≤ a + c := by
  unfold add64
  exact Nat.mod_le _ _

theorem add64_of_lt {a c : Nat} (h : a + c < U64) : add64 a c = a + c := by
  unfold add64
  exact Nat.mod_eq_of_lt h

/-- The loop takes the first `n` samples of the queue, or all of them and the
`break` when the queue holds fewer. -/
theorem popLoop_eq (n : Nat) (queue samples : List Sample) :
    popLoop n queue samples =
      { samples := samples ++ queue.take n, _samples := queue.drop n,
        broke := decide (queue.length < n) } := by
  induction n generalizing queue samples with
  | zero => simp [popLoop]
  | succ n ih =>
    cases queue with
    | nil => simp [popLoop]
    | cons sample queue => simp [popLoop, ih]

/-- A call with a pending boundary returns. -/
theorem PopSamplesUntilSegmentBoundary_eq (b : SampleBuffer) (boundary : SegmentBoundary)
    (rest : List SegmentBoundary) (h : b._segment_boundaries = boundary :: rest) :
    b.PopSamplesUntilSegmentBoundary =
      some (b._samples.take boundary.sample_count,
        { b with
          _segment_boundaries := rest,
          _samples := b._samples.drop boundary.sample_count,
          _total_consumed_samples_count :=
            add64 b._total_consumed_samples_count boundary.sample_count,
          _total_consumed_samples_duration_us :=
            add64 b._total_consumed_samples_duration_us boundary.duration_us,
          _total_available_duration_us :=
            sub64 b._total_available_duration_us boundary.duration_us,
          _total_available_count := sub64 b._total_available_count boundary.sample_count }) := by
  unfold PopSamplesUntilSegmentBoundary
  rw [h]
  simp [popLoop_eq]

theorem CountsFit_new (track : MediaTrack) : CountsFit (SampleBuffer.new track) := by
  simp [CountsFit, SampleBuffer.new]

theorem CountsFit_AddSample {b : SampleBuffer} (h : CountsFit b) (sample : Sample) :
    CountsFit (b.AddSample sample) := by
  unfold CountsFit at *
  have h1 := add64_le b._current_samples_count 1
  simp only [AddSample, List.length_append, List.length_singleton]
  omega

theorem CountsFit_MarkSegmentBoundary {b : SampleBuffer} (h : CountsFit b) :
    CountsFit b.MarkSegmentBoundary := by
  unfold CountsFit at *
  simp only [MarkSegmentBoundary, List.map_append, List.sum_append, List.map_cons, List.map_nil,
    List.sum_cons, List.sum_nil]
  omega

theorem CountsFit_PopSamplesUntilSegmentBoundary {b b' : SampleBuffer} {samples : List Sample}
    (h : CountsFit b) (hp : b.PopSamplesUntilSegmentBoundary = some (samples, b')) :
    CountsFit b' := by
  cases hb : b._segment_boundaries with
  | nil => simp [PopSamplesUntilSegmentBoundary, hb] at hp
  | cons boundary rest =>
    rw [PopSamplesUntilSegmentBoundary_eq b boundary rest hb] at hp
    simp only [Option.some.injEq, Prod.mk.injEq] at hp
    obtain ⟨-, rfl⟩ := hp
    unfold CountsFit at *
    rw [hb] at h
    simp only [List.map_cons, List.sum_cons] at h
    simp only [List.length_drop]
    omega

/-- A run of a non-empty call sequence is its first call followed by the run of the rest. -/
theorem run_cons_some {b b' : SampleBuffer} {op : Op} {ops : List Op} {outs : List (List Sample)}
    (h : run b (op :: ops) = some (b', outs)) :
    ∃ b1 out outs1, step b op = some (b1, out) ∧ run b1 ops = some (b', outs1) ∧
      outs = out.toList ++ outs1 := by
  simp only [run] at h
  cases hs : step b op with
  | none => simp [hs] at h
  | some p =>
    obtain ⟨b1, out⟩ := p
    simp only [hs] at h
    cases hr : run b1 ops with
    | none => simp [hr] at h
    | some r =>
      obtain ⟨b2, outs1⟩ := r
      simp only [hr, Option.some.injEq, Prod.mk.injEq] at h
      exact ⟨b1, out, outs1, rfl, by rw [← h.1, hr], h.2.symm⟩

/-- Calls other than `PopSample` keep `CountsFit`. -/
theorem CountsFit_run (ops : List Op) (hops : ∀ op ∈ ops, op.notPopSample = true) :
    ∀ (b b' : SampleBuffer) (outs : List (List Sample)), CountsFit b →
      run b ops = some (b', outs) → CountsFit b' := by
  induction ops with
  | nil =>
    intro b b' outs h hr
    simp only [run, Option.some.injEq, Prod.mk.injEq] at hr
    rw [← hr.1]
    exact h
  | cons op ops ih =>
    intro b b' outs h hr
    have hops' : ∀ o ∈ ops, o.notPopSample = true := fun o ho => hops o (List.mem_cons_of_mem _ ho)
    have hop := hops op (List.mem_cons_self _ _)
    obtain ⟨b1, out, outs1, hs, hr1, -⟩ := run_cons_some hr
    refine ih hops' b1 b' outs1 ?_ hr1
    cases op with
    | AddSample sample =>
      simp only [step, Option.some.injEq, Prod.mk.injEq] at hs
      rw [← hs.1]
      exact CountsFit_AddSample h sample
    | MarkSegmentBoundary =>
      simp only [step, Option.some.injEq, Prod.mk.injEq] at hs
      rw [← hs.1]
      exact CountsFit_MarkSegmentBoundary h
    | PopSample => simp [Op.notPopSample] at hop
    | PopSamplesUntilSegmentBoundary =>
      simp only [step] at hs
      cases hp : b.PopSamplesUntilSegmentBoundary with
      | none => simp [hp] at hs
      | some p =>
        obtain ⟨samples, b2⟩ := p
        simp only [hp, Option.some.injEq, Prod.mk.injEq] at hs
        rw [← hs.1]
        exact CountsFit_PopSamplesUntilSegmentBoundary h hp

theorem withinCapacity_length {b : SampleBuffer} {ops : List Op}
    (h : withinCapacity b ops = true) : b._samples.length < U64 := by
  cases ops with
  | nil => simpa [withinCapacity] using h
  | cons op ops =>
    simp only [withinCapacity, Bool.and_eq_true, decide_eq_true_eq] at h
    exact h.1

theorem withinCapacity_step {b b1 : SampleBuffer} {op : Op} {ops : List Op}
    {out : Option (List Sample)} (h : withinCapacity b (op :: ops) = true)
    (hs : step b op = some (b1, out)) : withinCapacity b1 ops = true := by
  simp only [withinCapacity, Bool.and_eq_true, decide_eq_true_eq, hs] at h
  exact h.2

theorem Tracks_new (track : MediaTrack) : Tracks (SampleBuffer.new track) [] [] :=
  ⟨rfl, rfl, rfl⟩

theorem Tracks_AddSample {b : SampleBuffer} {pending : List (List Sample)} {cur : List Sample}
    (h : Tracks b pending cur) (sample : Sample)
    (hcap : (b.AddSample sample)._samples.length < U64) :
    Tracks (b.AddSample sample) pending (cur ++ [sample]) := by
  have hlen : b._samples.length = pending.flatten.length + cur.length := by
    rw [h.samples_eq, List.length_append]
  simp only [AddSample, List.length_append, List.length_singleton] at hcap
  refine ⟨?_, h.counts_eq, ?_⟩
  · simp [AddSample, h.samples_eq]
  · simp only [AddSample, List.length_append, List.length_singleton]
    rw [h.current_eq]
    exact add64_of_lt (by omega)

theorem Tracks_MarkSegmentBoundary {b : SampleBuffer} {pending : List (List Sample)}
    {cur : List Sample} (h : Tracks b pending cur) :
    Tracks b.MarkSegmentBoundary (pending ++ [cur]) [] := by
  refine ⟨?_, ?_, rfl⟩
  · simp [MarkSegmentBoundary, h.samples_eq]
  · simp [MarkSegmentBoundary, h.counts_eq, h.current_eq]

theorem Tracks_PopSamplesUntilSegmentBoundary {b b' : SampleBuffer}
    {pending : List (List Sample)} {cur samples : List Sample} (h : Tracks b pending cur)
    (hp : b.PopSamplesUntilSegmentBoundary = some (samples, b')) :
    ∃ rest, pending = samples :: rest ∧ Tracks b' rest cur := by
  cases hb : b._segment_boundaries with
  | nil => simp [PopSamplesUntilSegmentBoundary, hb] at hp
  | cons boundary others =>
    rw [PopSamplesUntilSegmentBoundary_eq b boundary others hb] at hp
    simp only [Option.some.injEq, Prod.mk.injEq] at hp
    obtain ⟨hsamples, rfl⟩ := hp
    have hc := h.counts_eq
    rw [hb] at hc
    cases pending with
    | nil => simp at hc
    | cons group rest =>
      simp only [List.map_cons, List.cons.injEq] at hc
      have hq : b._samples = group ++ (rest.flatten ++ cur) := by
        rw [h.samples_eq, List.flatten_cons, List.append_assoc]
      refine ⟨rest, ?_, ?_, hc.2, h.current_eq⟩
      · rw [← hsamples, hq, hc.1, List.take_left]
      · show List.drop boundary.sample_count b._samples = rest.flatten ++ cur
        rw [hq, hc.1, List.drop_left]

/-- Calls other than `PopSample`, on a queue within capacity: the vectors returned by
`PopSamplesUntilSegmentBoundary` are the marked groups in order, and the buffer
keeps track of the groups not yet returned. -/
theorem Tracks_run (ops : List Op) (hops : ∀ op ∈ ops, op.notPopSample = true) :
    ∀ (b b' : SampleBuffer) (pending : List (List Sample)) (cur : List Sample)
      (outs : List (List Sample)), Tracks b pending cur → withinCapacity b ops = true →
      run b ops = some (b', outs) →
      outs.length ≤ (pending ++ markedGroups cur ops).length ∧
      outs = (pending ++ markedGroups cur ops).take outs.length ∧
      Tracks b' ((pending ++ markedGroups cur ops).drop outs.length) (sinceLastMark cur ops) := by
  induction ops with
  | nil =>
    intro b b' pending cur outs h _ hr
    simp only [run, Option.some.injEq, Prod.mk.injEq] at hr
    obtain ⟨rfl, rfl⟩ := hr
    simpa [markedGroups, sinceLastMark] using h
  | cons op ops ih =>
    intro b b' pending cur outs h hcap hr
    have hops' : ∀ o ∈ ops, o.notPopSample = true := fun o ho => hops o (List.mem_cons_of_mem _ ho)
    have hop := hops op (List.mem_cons_self _ _)
    obtain ⟨b1, out, outs1, hs, hr1, rfl⟩ := run_cons_some hr
    have hcap1 := withinCapacity_step hcap hs
    cases op with
    | AddSample sample =>
      simp only [step, Option.some.injEq, Prod.mk.injEq] at hs
      obtain ⟨rfl, rfl⟩ := hs
      have ht := Tracks_AddSample h sample (withinCapacity_length hcap1)
      simpa [markedGroups, sinceLastMark] using ih hops' _ b' pending _ outs1 ht hcap1 hr1
    | MarkSegmentBoundary =>
      simp only [step, Option.some.injEq, Prod.mk.injEq] at hs
      obtain ⟨rfl, rfl⟩ := hs
      have ht := Tracks_MarkSegmentBoundary h
      simpa [markedGroups, sinceLastMark] using ih hops' _ b' _ _ outs1 ht hcap1 hr1
    | PopSample => simp [Op.notPopSample] at hop
    | PopSamplesUntilSegmentBoundary =>
      simp only [step] at hs
      cases hp : b.PopSamplesUntilSegmentBoundary with
      | none => simp [hp] at hs
      | some p =>
        obtain ⟨samples, b2⟩ := p
        simp only [hp, Option.some.injEq, Prod.mk.injEq] at hs
        obtain ⟨rfl, rfl⟩ := hs
        obtain ⟨rest, rfl, ht⟩ := Tracks_PopSamplesUntilSegmentBoundary h hp
        have := ih hops' _ b' rest cur outs1 ht hcap1 hr1
        obtain ⟨h1, h2, h3⟩ := this
        refine ⟨?_, ?_, ?_⟩
        · simpa [markedGroups] using h1
        · simp only [Option.toList, List.singleton_append, List.length_cons, markedGroups,
            List.cons_append, List.take_succ_cons, List.cons.injEq, true_and]
          exact h2
        · simpa [markedGroups, sinceLastMark] using h3

/-! ## The sample buffer: popping up to a boundary -/

/-- C1, refuted as stated: after `AddSample`, `MarkSegmentBoundary`, `PopSample` the
buffer has a pending marker that records one sample, and
`PopSamplesUntilSegmentBoundary` returns an empty vector. -/
theorem C1_counterexample :
    poppedBuffer.HasSegmentBoundary = true ∧
    poppedBuffer._segment_boundaries.head?.map SegmentBoundary.sample_count = some 1 ∧
    poppedBuffer.PopSamplesUntilSegmentBoundary.map (fun r => r.1.length) = some 0 := by
  decide

/-- C1, amended: in every buffer reached from a fresh one through `AddSample`,
`MarkSegmentBoundary` and `PopSamplesUntilSegmentBoundary` (no `PopSample`) that has
a pending marker, `PopSamplesUntilSegmentBoundary` returns, and the returned
vector has as many samples as the oldest pending marker records. -/
theorem C1_pop_length_eq_marker_count (track : MediaTrack) (ops : List Op)
    (hops : ∀ op ∈ ops, op.notPopSample = true) (b : SampleBuffer) (outs : List (List Sample))
    (hrun : run (SampleBuffer.new track) ops = some (b, outs))
    (boundary : SegmentBoundary) (rest : List SegmentBoundary)
    (hb : b._segment_boundaries = boundary :: rest) :
    ∃ samples b', b.PopSamplesUntilSegmentBoundary = some (samples, b') ∧
      samples.length = boundary.sample_count := by
  have hfit := CountsFit_run ops hops _ b outs (CountsFit_new track) hrun
  refine ⟨_, _, PopSamplesUntilSegmentBoundary_eq b boundary rest hb, ?_⟩
  unfold CountsFit at hfit
  rw [hb] at hfit
  simp only [List.map_cons, List.sum_cons] at hfit
  rw [List.length_take]
  omega

/-- C1, amended, at `exampleOps`: the pending marker records one sample and one
sample is returned. -/
theorem C1_pop_length_eq_marker_count_witness :
    run (SampleBuffer.new usTrack) exampleOps = some (exampleBuffer, [[sampleOf 5, sampleOf 7]]) ∧
    ∃ samples b', exampleBuffer.PopSamplesUntilSegmentBoundary = some (samples, b') ∧
      samples.length = 1 :=
  ⟨rfl, C1_pop_length_eq_marker_count usTrack exampleOps (by decide) exampleBuffer
    [[sampleOf 5, sampleOf 7]] rfl { sample_count := 1, duration_us := 9 } [] rfl⟩

/-- C2: for every buffer with a pending marker, `PopSamplesUntilSegmentBoundary`
returns and `GetTotalAvailableDurationUs` afterwards is the value before minus
`GetDurationUntilSegmentBoundaryUs` before, computed in 64-bit unsigned
arithmetic. -/
theorem C2_available_decreases_by_marker_duration (b : SampleBuffer)
    (h : b.HasSegmentBoundary = true) :
    ∃ samples b', b.PopSamplesUntilSegmentBoundary = some (samples, b') ∧
      (b'.GetTotalAvailableDurationUs : Int) =
        ((b.GetTotalAvailableDurationUs : Int) - (b.GetDurationUntilSegmentBoundaryUs : Int))
          % (2 ^ 64 : Int) := by
  cases hb : b._segment_boundaries with
  | nil => simp [HasSegmentBoundary, hb] at h
  | cons boundary rest =>
    refine ⟨_, _, PopSamplesUntilSegmentBoundary_eq b boundary rest hb, ?_⟩
    simp only [GetTotalAvailableDurationUs, GetDurationUntilSegmentBoundaryUs, hb]
    exact sub64_cast _ _

/-- C2 at `exampleBuffer`: 20 us available, 9 us in the oldest marker. -/
theorem C2_available_decreases_by_marker_duration_witness :
    exampleBuffer.HasSegmentBoundary = true ∧
    ∃ samples b', exampleBuffer.PopSamplesUntilSegmentBoundary = some (samples, b') ∧
      (b'.GetTotalAvailableDurationUs : Int) =
        ((exampleBuffer.GetTotalAvailableDurationUs : Int) -
          (exampleBuffer.GetDurationUntilSegmentBoundaryUs : Int)) % (2 ^ 64 : Int) :=
  ⟨by decide, C2_available_decreases_by_marker_duration exampleBuffer (by decide)⟩

/-! ## The sample buffer: duration recorded by a mark -/

theorem foldl_AddSample_track (samples : List Sample) (b : SampleBuffer) :
    (samples.foldl AddSample b)._track = b._track := by
  induction samples generalizing b with
  | nil => rfl
  | cons sample samples ih => rw [List.foldl_cons, ih]; rfl

theorem foldl_AddSample_boundaries (samples : List Sample) (b : SampleBuffer) :
    (samples.foldl AddSample b)._segment_boundaries = b._segment_boundaries := by
  induction samples generalizing b with
  | nil => rfl
  | cons sample samples ih => rw [List.foldl_cons, ih]; rfl

/-- Starting from a zero counter, `AddSample` accumulates the durations modulo `2^64`. -/
theorem foldl_AddSample_current (samples : List Sample) (b : SampleBuffer)
    (h : b._current_samples_duration_us = 0) :
    (samples.foldl AddSample b)._current_samples_duration_us =
      (samples.map b.GetSampleDurationUs).sum % U64 := by
  induction samples using List.reverseRecOn with
  | nil => simp [h]
  | append_singleton samples sample ih =>
    rw [List.foldl_append, List.foldl_cons, List.foldl_nil]
    have hd : (samples.foldl AddSample b).GetSampleDurationUs sample =
        b.GetSampleDurationUs sample := by
      simp only [GetSampleDurationUs, GetTrack, foldl_AddSample_track]
    simp only [AddSample, hd, ih, add64, List.map_append, List.sum_append, List.map_cons,
      List.map_nil, List.sum_cons, List.sum_nil, Nat.add_zero]
    exact Nat.mod_add_mod _ _ _

/-- C3, refuted as stated: with an earlier marker still pending, the getter reports
that older marker (5 us) and not the 7 us added since the previous mark; and four
samples of `2^62` us add up to `2^64` us while the marker records 0. -/
theorem C3_counterexample :
    twoMarksBuffer.GetDurationUntilSegmentBoundaryUs = 5 ∧
    ([sampleOf 7].map (SampleBuffer.new usTrack).GetSampleDurationUs).sum = 7 ∧
    ((longSamples.foldl AddSample (SampleBuffer.new usTrack)).MarkSegmentBoundary
      ).GetDurationUntilSegmentBoundaryUs = 0 ∧
    (longSamples.map (SampleBuffer.new usTrack).GetSampleDurationUs).sum = 2 ^ 64 := by
  decide

/-- C3, amended: on a buffer with no pending marker and a zero since-last-mark
duration (a fresh buffer, or one whose marks have all been popped), after any
`AddSample` calls followed by `MarkSegmentBoundary`,
`GetDurationUntilSegmentBoundaryUs` is the sum of `GetSampleDurationUs` over the
added samples modulo `2^64`. -/
theorem C3_marker_duration_is_sum (b : SampleBuffer) (samples : List Sample)
    (hb : b._segment_boundaries = []) (hc : b._current_samples_duration_us = 0) :
    ((samples.foldl AddSample b).MarkSegmentBoundary).GetDurationUntilSegmentBoundaryUs =
      (samples.map b.GetSampleDurationUs).sum % U64 := by
  simp only [GetDurationUntilSegmentBoundaryUs, MarkSegmentBoundary,
    foldl_AddSample_boundaries, hb, List.nil_append]
  exact foldl_AddSample_current samples b hc

/-- C3, amended, on a fresh buffer with samples of 5, 7 and 9 us: the mark records
21 us. -/
theorem C3_marker_duration_is_sum_witness :
    (([sampleOf 5, sampleOf 7, sampleOf 9].foldl AddSample
      (SampleBuffer.new usTrack)).MarkSegmentBoundary).GetDurationUntilSegmentBoundaryUs =
      ([sampleOf 5, sampleOf 7, sampleOf 9].map
        (SampleBuffer.new usTrack).GetSampleDurationUs).sum % U64 :=
  C3_marker_duration_is_sum (SampleBuffer.new usTrack) [sampleOf 5, sampleOf 7, sampleOf 9]
    rfl rfl

/-! ## The sample buffer: what a pop returns -/

/-- C4: from a fresh buffer, with `AddSample`, `MarkSegmentBoundary` and
`PopSamplesUntilSegmentBoundary` only (the last only with a marker pending, which
is what `run` returning says) and a queue within its capacity, the k-th call of
`PopSamplesUntilSegmentBoundary` returns the samples added between the (k-1)-th
and the k-th mark in the order added, and the queue is left with exactly the
samples of the marks not yet popped followed by those added since the last mark. -/
theorem C4_pop_returns_marked_groups (track : MediaTrack) (ops : List Op)
    (hops : ∀ op ∈ ops, op.notPopSample = true)
    (hcap : withinCapacity (SampleBuffer.new track) ops = true)
    (b : SampleBuffer) (outs : List (List Sample))
    (hrun : run (SampleBuffer.new track) ops = some (b, outs)) :
    (∀ k, k < outs.length → ∃ group, outs[k]? = some group ∧
      (markedGroups [] ops)[k]? = some group) ∧
    b._samples = ((markedGroups [] ops).drop outs.length).flatten ++ sinceLastMark [] ops := by
  obtain ⟨h1, h2, h3⟩ := Tracks_run ops hops _ b [] [] outs (Tracks_new track) hcap hrun
  simp only [List.nil_append] at h1 h2 h3
  refine ⟨?_, h3.samples_eq⟩
  intro k hk
  refine ⟨outs[k], List.getElem?_eq_getElem hk, ?_⟩
  have h4 : outs[k]? = (markedGroups [] ops)[k]? := by
    conv_lhs => rw [h2]
    exact List.getElem?_take_of_lt hk
  rw [← h4]
  exact List.getElem?_eq_getElem hk

/-- C4 at `exampleOps`: the one pop returned the two samples added before the first
mark, and the queue holds the sample of the second mark and the one added after
it. -/
theorem C4_pop_returns_marked_groups_witness :
    run (SampleBuffer.new usTrack) exampleOps = some (exampleBuffer, [[sampleOf 5, sampleOf 7]]) ∧
    markedGroups [] exampleOps = [[sampleOf 5, sampleOf 7], [sampleOf 9]] ∧
    ((∀ k, k < [[sampleOf 5, sampleOf 7]].length → ∃ group,
        [[sampleOf 5, sampleOf 7]][k]? = some group ∧
        (markedGroups [] exampleOps)[k]? = some group) ∧
      exampleBuffer._samples =
        ((markedGroups [] exampleOps).drop [[sampleOf 5, sampleOf 7]].length).flatten ++
          sinceLastMark [] exampleOps) :=
  ⟨rfl, by decide, C4_pop_returns_marked_groups usTrack exampleOps (by decide) (by decide)
    exampleBuffer [[sampleOf 5, sampleOf 7]] rfl⟩

/-! ## The segment: where the payload resides -/

theorem applyAll_append (seg : Segment) (ops ops' : List SegmentOp) :
    seg.applyAll (ops ++ ops') = (seg.applyAll ops).applyAll ops' := by
  simp [Segment.applyAll, List.foldl_append]

/-- Calls other than `AddPacketData` leave a cleared in-memory flag cleared. -/
theorem applyAll_not_in_memory (ops : List SegmentOp)
    (hops : ∀ op ∈ ops, op.isAddPacketData = false) :
    ∀ seg : Segment, seg.IsDataInMemory = false → (seg.applyAll ops).IsDataInMemory = false := by
  induction ops with
  | nil => intro seg h; exact h
  | cons op ops ih =>
    intro seg h
    have hop := hops op (List.mem_cons_self _ _)
    have hops' : ∀ o ∈ ops, o.isAddPacketData = false :=
      fun o ho => hops o (List.mem_cons_of_mem _ ho)
    show ((seg.apply op).applyAll ops).IsDataInMemory = false
    apply ih hops'
    cases op with
    | AddPacketData data => simp [SegmentOp.isAddPacketData] at hop
    | SetFilePath file_path => exact h
    | ResetData => rfl
    | SetUrl url => exact h

/-- C5, refuted as stated: after `AddPacketData` and then `SetFilePath` on a fresh
segment both `IsDataInMemory` and `IsDataInFile` are true. -/
theorem C5_counterexample :
    (freshSegment.applyAll [.AddPacketData [1, 2, 3], .SetFilePath "seg_7.ts"]).IsDataInMemory
      = true ∧
    (freshSegment.applyAll [.AddPacketData [1, 2, 3], .SetFilePath "seg_7.ts"]).IsDataInFile
      = true := by
  decide

/-- C5, amended: after any sequence of mutating operations in which `ResetData` is
called and no `AddPacketData` follows the last `ResetData`, `IsDataInMemory` and
`IsDataInFile` are not both true. -/
theorem C5_not_both_after_reset (seg : Segment) (before after : List SegmentOp)
    (hafter : ∀ op ∈ after, op.isAddPacketData = false) :
    ¬ ((seg.applyAll (before ++ [SegmentOp.ResetData] ++ after)).IsDataInMemory = true ∧
       (seg.applyAll (before ++ [SegmentOp.ResetData] ++ after)).IsDataInFile = true) := by
  have h : (seg.applyAll (before ++ [SegmentOp.ResetData] ++ after)).IsDataInMemory = false := by
    rw [applyAll_append, applyAll_append]
    exact applyAll_not_in_memory after hafter _ rfl
  rw [h]
  simp

/-- C5, amended, at the disk write of a filled segment: `AddPacketData`,
`SetFilePath`, `ResetData`, `SetUrl`. -/
theorem C5_not_both_after_reset_witness :
    ¬ ((freshSegment.applyAll ([.AddPacketData [1, 2, 3], .SetFilePath "seg_7.ts"] ++
          [SegmentOp.ResetData] ++ [.SetUrl "seg_7.ts?session=1"])).IsDataInMemory = true ∧
       (freshSegment.applyAll ([.AddPacketData [1, 2, 3], .SetFilePath "seg_7.ts"] ++
          [SegmentOp.ResetData] ++ [.SetUrl "seg_7.ts?session=1"])).IsDataInFile = true) :=
  C5_not_both_after_reset freshSegment [.AddPacketData [1, 2, 3], .SetFilePath "seg_7.ts"]
    [.SetUrl "seg_7.ts?session=1"] (by decide)

/-- After at least one `AddPacketData` call the payload is in memory. -/
theorem applyAll_AddPacketData_in_memory (seg : Segment) (blobs : List Data) (h : blobs ≠ []) :
    (seg.applyAll (blobs.map SegmentOp.AddPacketData))._is_data_in_memory = true ∧
    ∃ p, (seg.applyAll (blobs.map SegmentOp.AddPacketData))._data = some p := by
  induction blobs using List.reverseRecOn with
  | nil => exact absurd rfl h
  | append_singleton blobs blob _ =>
    rw [List.map_append, applyAll_append]
    exact ⟨rfl, _, rfl⟩

/-! ## The segment: `GetData` -/

/-- C6: `GetData` returns `_data` without loading a file when `IsDataInMemory`;
otherwise, when `IsDataInFile`, it loads the file at `GetFilePath` (and only that
file) and returns what the load gave; otherwise it returns null and loads
nothing.  The segment is the same after the call. -/
theorem C6_GetData_by_residence (fs : FileSystem) (seg : Segment) :
    (seg.GetData fs).data =
      (if seg.IsDataInMemory = true then seg._data
       else if seg.IsDataInFile = true then fs.LoadFromFile seg.GetFilePath
       else none) ∧
    (seg.GetData fs).loaded =
      (if seg.IsDataInMemory = true then []
       else if seg.IsDataInFile = true then [seg.GetFilePath]
       else []) ∧
    (seg.GetData fs).segment = seg := by
  unfold Segment.GetData Segment.IsDataInMemory Segment.IsDataInFile Segment.GetFilePath
  cases seg._is_data_in_memory <;> cases seg._is_data_in_file <;>
    cases fs.LoadFromFile seg._file_path <;> simp

/-- C7, refuted as stated: when every load fails, `GetData` returns for the on-disk
segment the same null pointer that it returns for the segment with no payload at
all. -/
theorem C7_counterexample :
    onDiskSegment.IsDataInMemory = false ∧ onDiskSegment.IsDataInFile = true ∧
    freshSegment.IsDataInMemory = false ∧ freshSegment.IsDataInFile = false ∧
    (onDiskSegment.GetData failingFs).data = (freshSegment.GetData failingFs).data := by
  decide

/-- C7, amended: `GetData` returns null both for an on-disk segment whose load fails
and for a segment that is neither in memory nor on disk; the two calls differ
only in what they do besides returning: the first loads the file and logs the
failure for its path, the second loads and logs nothing. -/
theorem C7_read_failure_only_logged (fs : FileSystem) (onDisk absent : Segment)
    (hmem : onDisk.IsDataInMemory = false) (hfile : onDisk.IsDataInFile = true)
    (hfail : fs.LoadFromFile onDisk.GetFilePath = none)
    (hmem' : absent.IsDataInMemory = false) (hfile' : absent.IsDataInFile = false) :
    (onDisk.GetData fs).data = none ∧ (absent.GetData fs).data = none ∧
    (onDisk.GetData fs).logged = [onDisk.GetFilePath] ∧ (absent.GetData fs).logged = [] ∧
    (onDisk.GetData fs).loaded = [onDisk.GetFilePath] ∧ (absent.GetData fs).loaded = [] := by
  unfold Segment.IsDataInMemory at hmem hmem'
  unfold Segment.IsDataInFile at hfile hfile'
  unfold Segment.GetFilePath at hfail
  simp [Segment.GetData, Segment.GetFilePath, hmem, hfile, hfail, hmem', hfile']

/-- C7, amended, at `onDiskSegment` and `freshSegment` with every load failing. -/
theorem C7_read_failure_only_logged_witness :
    (onDiskSegment.GetData failingFs).data = none ∧
    (freshSegment.GetData failingFs).data = none ∧
    (onDiskSegment.GetData failingFs).logged = [onDiskSegment.GetFilePath] ∧
    (freshSegment.GetData failingFs).logged = [] ∧
    (onDiskSegment.GetData failingFs).loaded = [onDiskSegment.GetFilePath] ∧
    (freshSegment.GetData failingFs).loaded = [] :=
  C7_read_failure_only_logged failingFs onDiskSegment freshSegment rfl rfl rfl rfl rfl

/-- C8: let a segment hold the payload `p` built in memory by one or more
`AddPacketData` calls (`p` is what `GetData` returns then).  After `SetFilePath f`
and `ResetData`, on a file system that returns for `f` the bytes `p` written
there, `GetData` loads `f`, and only `f`, and returns `p`. -/
theorem C8_GetData_after_disk_write (fs0 fs : FileSystem) (seg : Segment) (blobs : List Data)
    (f : String) (hblobs : blobs ≠ [])
    (hfs : fs.LoadFromFile f =
      ((seg.applyAll (blobs.map SegmentOp.AddPacketData)).GetData fs0).data) :
    ∃ p, ((seg.applyAll (blobs.map SegmentOp.AddPacketData)).GetData fs0).data = some p ∧
      ((seg.applyAll (blobs.map SegmentOp.AddPacketData)).GetData fs0).loaded = [] ∧
      ((((seg.applyAll (blobs.map SegmentOp.AddPacketData)).SetFilePath f).ResetData).GetData
        fs).data = some p ∧
      ((((seg.applyAll (blobs.map SegmentOp.AddPacketData)).SetFilePath f).ResetData).GetData
        fs).loaded = [f] := by
  obtain ⟨hmem, p, hp⟩ := applyAll_AddPacketData_in_memory seg blobs hblobs
  have hpre : ((seg.applyAll (blobs.map SegmentOp.AddPacketData)).GetData fs0).data = some p := by
    simp [Segment.GetData, hmem, hp]
  rw [hpre] at hfs
  refine ⟨p, hpre, ?_, ?_, ?_⟩
  · simp [Segment.GetData, hmem]
  · simp [Segment.GetData, Segment.SetFilePath, Segment.ResetData, hfs]
  · simp [Segment.GetData, Segment.SetFilePath, Segment.ResetData, hfs]

/-- C8 at a fresh segment filled with `[1]` and `[2, 3]` and written to
`seg_7.ts`. -/
theorem C8_GetData_after_disk_write_witness :
    oneFileFs.LoadFromFile "seg_7.ts" =
      ((freshSegment.applyAll ([[1], [2, 3]].map SegmentOp.AddPacketData)).GetData
        failingFs).data ∧
    ∃ p, ((freshSegment.applyAll ([[1], [2, 3]].map SegmentOp.AddPacketData)).GetData
        failingFs).data = some p ∧
      ((freshSegment.applyAll ([[1], [2, 3]].map SegmentOp.AddPacketData)).GetData
        failingFs).loaded = [] ∧
      ((((freshSegment.applyAll ([[1], [2, 3]].map SegmentOp.AddPacketData)).SetFilePath
        "seg_7.ts").ResetData).GetData oneFileFs).data = some p ∧
      ((((freshSegment.applyAll ([[1], [2, 3]].map SegmentOp.AddPacketData)).SetFilePath
        "seg_7.ts").ResetData).GetData oneFileFs).loaded = ["seg_7.ts"] :=
  ⟨by decide, C8_GetData_after_disk_write failingFs oneFileFs freshSegment [[1], [2, 3]]
    "seg_7.ts" (by decide) (by decide)⟩

/-! ## The sample buffer: markers and the queue -/

/-- C9: in every buffer reached from a fresh one through `AddSample`,
`MarkSegmentBoundary` and `PopSamplesUntilSegmentBoundary` (the last only with a
marker pending), the loop that `PopSamplesUntilSegmentBoundary` runs for the
oldest pending marker does not leave through the `break` of the empty-queue
branch. -/
theorem C9_defensive_branch_not_taken (track : MediaTrack) (ops : List Op)
    (hops : ∀ op ∈ ops, op.notPopSample = true) (b : SampleBuffer) (outs : List (List Sample))
    (hrun : run (SampleBuffer.new track) ops = some (b, outs))
    (boundary : SegmentBoundary) (rest : List SegmentBoundary)
    (hb : b._segment_boundaries = boundary :: rest) :
    (popLoop boundary.sample_count b._samples []).broke = false := by
  have hfit := CountsFit_run ops hops _ b outs (CountsFit_new track) hrun
  unfold CountsFit at hfit
  rw [hb] at hfit
  simp only [List.map_cons, List.sum_cons] at hfit
  rw [popLoop_eq]
  simp only [decide_eq_false_iff_not, not_lt]
  omega

/-- C9 at `exampleOps`: the loop for the pending marker of `exampleBuffer` ends
without the `break`. -/
theorem C9_defensive_branch_not_taken_witness :
    run (SampleBuffer.new usTrack) exampleOps = some (exampleBuffer, [[sampleOf 5, sampleOf 7]]) ∧
    (popLoop 1 exampleBuffer._samples []).broke = false :=
  ⟨rfl, C9_defensive_branch_not_taken usTrack exampleOps (by decide) exampleBuffer
    [[sampleOf 5, sampleOf 7]] rfl { sample_count := 1, duration_us := 9 } [] rfl⟩

/-- C10: in every buffer reached from a fresh one through `AddSample`,
`MarkSegmentBoundary` and `PopSamplesUntilSegmentBoundary` (the last only with a
marker pending) with the queue within its capacity, the queue holds as many
samples as the pending markers record plus the number added since the last mark;
the pending markers, oldest first, record the sizes of the marked groups not yet
popped, and the queue is those groups in order followed by the samples added
since the last mark. -/
theorem C10_queue_matches_markers (track : MediaTrack) (ops : List Op)
    (hops : ∀ op ∈ ops, op.notPopSample = true)
    (hcap : withinCapacity (SampleBuffer.new track) ops = true)
    (b : SampleBuffer) (outs : List (List Sample))
    (hrun : run (SampleBuffer.new track) ops = some (b, outs)) :
    b._samples.length =
      (b._segment_boundaries.map SegmentBoundary.sample_count).sum +
        (sinceLastMark [] ops).length ∧
    b._segment_boundaries.map SegmentBoundary.sample_count =
      ((markedGroups [] ops).drop outs.length).map List.length ∧
    b._samples = ((markedGroups [] ops).drop outs.length).flatten ++ sinceLastMark [] ops := by
  obtain ⟨-, -, h3⟩ := Tracks_run ops hops _ b [] [] outs (Tracks_new track) hcap hrun
  simp only [List.nil_append] at h3
  refine ⟨?_, h3.counts_eq, h3.samples_eq⟩
  rw [h3.samples_eq, h3.counts_eq, List.length_append, List.length_flatten]

/-- C10 at `exampleOps`: two samples queued, one recorded by the pending marker and
one added since the last mark. -/
theorem C10_queue_matches_markers_witness :
    run (SampleBuffer.new usTrack) exampleOps = some (exampleBuffer, [[sampleOf 5, sampleOf 7]]) ∧
    (exampleBuffer._samples.length =
      (exampleBuffer._segment_boundaries.map SegmentBoundary.sample_count).sum +
        (sinceLastMark [] exampleOps).length ∧
    exampleBuffer._segment_boundaries.map SegmentBoundary.sample_count =
      ((markedGroups [] exampleOps).drop [[sampleOf 5, sampleOf 7]].length).map List.length ∧
    exampleBuffer._samples =
      ((markedGroups [] exampleOps).drop [[sampleOf 5, sampleOf 7]].length).flatten ++
        sinceLastMark [] exampleOps) :=
  ⟨rfl, C10_queue_matches_markers usTrack exampleOps (by decide) (by decide) exampleBuffer
    [[sampleOf 5, sampleOf 7]] rfl⟩

/-! ## The sample buffer: the since-last-mark duration -/

theorem GetSampleDurationUs_of_track {track : MediaTrack} {b : SampleBuffer}
    (h : b._track = track) (sample : Sample) :
    b.GetSampleDurationUs sample = (SampleBuffer.new track).GetSampleDurationUs sample := by
  simp [GetSampleDurationUs, GetTrack, SampleBuffer.new, h]

theorem totalDurationUs_nil (track : MediaTrack) : totalDurationUs track [] = 0 := rfl

theorem totalDurationUs_append (track : MediaTrack) (xs ys : List Sample) :
    totalDurationUs track (xs ++ ys) = totalDurationUs track xs + totalDurationUs track ys := by
  simp [totalDurationUs]

theorem totalDurationUs_cons (track : MediaTrack) (x : Sample) (xs : List Sample) :
    totalDurationUs track (x :: xs) =
      (SampleBuffer.new track).GetSampleDurationUs x + totalDurationUs track xs := by
  simp [totalDurationUs]

theorem totalDurationUs_singleton (track : MediaTrack) (x : Sample) :
    totalDurationUs track [x] = (SampleBuffer.new track).GetSampleDurationUs x := by
  simp [totalDurationUs]

/-- No call changes the track of the buffer. -/
theorem step_track {b b1 : SampleBuffer} {op : Op} {out : Option (List Sample)}
    (hs : step b op = some (b1, out)) : b1._track = b._track := by
  cases op with
  | AddSample sample =>
    simp only [step, Option.some.injEq, Prod.mk.injEq] at hs
    rw [← hs.1]; rfl
  | MarkSegmentBoundary =>
    simp only [step, Option.some.injEq, Prod.mk.injEq] at hs
    rw [← hs.1]; rfl
  | PopSample =>
    simp only [step, Option.some.injEq, Prod.mk.injEq] at hs
    rw [← hs.1]
    unfold PopSample
    cases b._samples <;> rfl
  | PopSamplesUntilSegmentBoundary =>
    simp only [step] at hs
    cases hb : b._segment_boundaries with
    | nil => simp [PopSamplesUntilSegmentBoundary, hb] at hs
    | cons boundary rest =>
      rw [PopSamplesUntilSegmentBoundary_eq b boundary rest hb] at hs
      simp only [Option.some.injEq, Prod.mk.injEq] at hs
      rw [← hs.1]

/-- Without `PopSample`, the since-last-mark duration counter follows the samples
added since the last mark, modulo `2^64`. -/
theorem current_duration_run (track : MediaTrack) (ops : List Op)
    (hops : ∀ op ∈ ops, op.notPopSample = true) :
    ∀ (b b' : SampleBuffer) (cur : List Sample) (outs : List (List Sample)),
      b._track = track → b._current_samples_duration_us = totalDurationUs track cur % U64 →
      run b ops = some (b', outs) →
      b'._current_samples_duration_us = totalDurationUs track (sinceLastMark cur ops) % U64 := by
  induction ops with
  | nil =>
    intro b b' cur outs _ hc hr
    simp only [run, Option.some.injEq, Prod.mk.injEq] at hr
    rw [← hr.1]
    exact hc
  | cons op ops ih =>
    intro b b' cur outs ht hc hr
    have hops' : ∀ o ∈ ops, o.notPopSample = true := fun o ho => hops o (List.mem_cons_of_mem _ ho)
    have hop := hops op (List.mem_cons_self _ _)
    obtain ⟨b1, out, outs1, hs, hr1, -⟩ := run_cons_some hr
    have ht1 : b1._track = track := (step_track hs).trans ht
    cases op with
    | AddSample sample =>
      simp only [step, Option.some.injEq, Prod.mk.injEq] at hs
      refine ih hops' b1 b' (cur ++ [sample]) outs1 ht1 ?_ hr1
      rw [← hs.1, totalDurationUs_append, totalDurationUs_singleton]
      simp only [AddSample, GetSampleDurationUs_of_track ht, hc, add64]
      exact Nat.mod_add_mod _ _ _
    | MarkSegmentBoundary =>
      simp only [step, Option.some.injEq, Prod.mk.injEq] at hs
      refine ih hops' b1 b' [] outs1 ht1 ?_ hr1
      rw [← hs.1]
      rfl
    | PopSample => simp [Op.notPopSample] at hop
    | PopSamplesUntilSegmentBoundary =>
      simp only [step] at hs
      refine ih hops' b1 b' cur outs1 ht1 ?_ hr1
      cases hb : b._segment_boundaries with
      | nil => simp [PopSamplesUntilSegmentBoundary, hb] at hs
      | cons boundary rest =>
        rw [PopSamplesUntilSegmentBoundary_eq b boundary rest hb] at hs
        simp only [Option.some.injEq, Prod.mk.injEq] at hs
        rw [← hs.1]
        exact hc

/-- C11, refuted as stated: after `AddSample` of a 5 us sample and `PopSample`,
`GetCurrentDurationUs` is 0 while 5 us were added since creation; and after four
samples of `2^62` us it is 0 while `2^64` us were added. -/
theorem C11_counterexample :
    (run (SampleBuffer.new usTrack) [.AddSample (sampleOf 5), .PopSample]).map
      (fun r => r.1.GetCurrentDurationUs) = some 0 ∧
    totalDurationUs usTrack (sinceLastMark [] [.AddSample (sampleOf 5), .PopSample]) = 5 ∧
    (longSamples.foldl AddSample (SampleBuffer.new usTrack)).GetCurrentDurationUs = 0 ∧
    totalDurationUs usTrack longSamples = 2 ^ 64 := by
  decide

/-- C11, amended: in every buffer reached from a fresh one through `AddSample`,
`MarkSegmentBoundary` and `PopSamplesUntilSegmentBoundary` (no `PopSample`),
`GetCurrentDurationUs` is the sum of `GetSampleDurationUs` over the samples added
since the last `MarkSegmentBoundary` call (or since creation), modulo `2^64`. -/
theorem C11_current_duration_is_sum (track : MediaTrack) (ops : List Op)
    (hops : ∀ op ∈ ops, op.notPopSample = true) (b : SampleBuffer) (outs : List (List Sample))
    (hrun : run (SampleBuffer.new track) ops = some (b, outs)) :
    b.GetCurrentDurationUs = totalDurationUs track (sinceLastMark [] ops) % U64 :=
  current_duration_run track ops hops (SampleBuffer.new track) b [] outs rfl rfl hrun

/-- C11, amended, at `exampleOps`: 11 us were added since the last mark. -/
theorem C11_current_duration_is_sum_witness :
    run (SampleBuffer.new usTrack) exampleOps = some (exampleBuffer, [[sampleOf 5, sampleOf 7]]) ∧
    sinceLastMark [] exampleOps = [sampleOf 11] ∧
    exampleBuffer.GetCurrentDurationUs = totalDurationUs usTrack (sinceLastMark [] exampleOps) % U64 :=
  ⟨rfl, by decide, C11_current_duration_is_sum usTrack exampleOps (by decide) exampleBuffer
    [[sampleOf 5, sampleOf 7]] rfl⟩

/-! ## The sample buffer: the available total -/

theorem sub64_le_of_le {a c : Nat} (h : c ≤ a) : sub64 a c ≤ a := by
  unfold sub64 U64
  omega

/-- C12, refuted as stated: adding the fourth sample of `2^62` us takes the
available total from `3 * 2^62` down to 0; `PopSample` on `mixedBuffer` takes it
from 3 up to `2^64 - 4`; `PopSamplesUntilSegmentBoundary` on `poppedBuffer` takes
it from 0 up to `2^64 - 5`. -/
theorem C12_counterexample :
    ((longSamples.take 3).foldl AddSample (SampleBuffer.new usTrack)).GetTotalAvailableDurationUs
      = 3 * 2 ^ 62 ∧
    ((((longSamples.take 3).foldl AddSample (SampleBuffer.new usTrack)).AddSample
      (sampleOf (2 ^ 62))).GetTotalAvailableDurationUs) = 0 ∧
    (run (SampleBuffer.new usTrack) mixedOps).map (fun r => r.1.GetTotalAvailableDurationUs)
      = some 3 ∧
    (run (SampleBuffer.new usTrack) (mixedOps ++ [.PopSample])).map
      (fun r => r.1.GetTotalAvailableDurationUs) = some (2 ^ 64 - 4) ∧
    poppedBuffer.GetTotalAvailableDurationUs = 0 ∧
    poppedBuffer.PopSamplesUntilSegmentBoundary.map (fun r => r.2.GetTotalAvailableDurationUs)
      = some (2 ^ 64 - 5) := by
  decide

/-- C12, amended: for every buffer, `MarkSegmentBoundary` leaves
`GetTotalAvailableDurationUs` unchanged; `AddSample` does not make it smaller when
the total plus the sample duration stays below `2^64`; `PopSample` does not make
it larger when the queue is empty or the duration of the front sample does not
exceed the total; `PopSamplesUntilSegmentBoundary` (with a marker pending) does
not make it larger when the duration of the oldest marker does not exceed the
total. -/
theorem C12_available_monotone_without_wrap (b : SampleBuffer) :
    b.MarkSegmentBoundary.GetTotalAvailableDurationUs = b.GetTotalAvailableDurationUs ∧
    (∀ sample, b.GetTotalAvailableDurationUs + b.GetSampleDurationUs sample < U64 →
      b.GetTotalAvailableDurationUs ≤ (b.AddSample sample).GetTotalAvailableDurationUs) ∧
    (b.GetSample = none →
      b.PopSample.2.GetTotalAvailableDurationUs = b.GetTotalAvailableDurationUs) ∧
    (∀ sample, b.GetSample = some sample →
      b.GetSampleDurationUs sample ≤ b.GetTotalAvailableDurationUs →
      b.PopSample.2.GetTotalAvailableDurationUs ≤ b.GetTotalAvailableDurationUs) ∧
    (∀ samples b', b.PopSamplesUntilSegmentBoundary = some (samples, b') →
      b.GetDurationUntilSegmentBoundaryUs ≤ b.GetTotalAvailableDurationUs →
      b'.GetTotalAvailableDurationUs ≤ b.GetTotalAvailableDurationUs) := by
  refine ⟨rfl, ?_, ?_, ?_, ?_⟩
  · intro sample h
    simp only [GetTotalAvailableDurationUs, AddSample] at h ⊢
    rw [add64_of_lt h]
    exact Nat.le_add_right _ _
  · intro h
    unfold GetSample at h
    unfold PopSample
    cases hq : b._samples with
    | nil => rfl
    | cons sample rest => simp [hq] at h
  · intro sample h hle
    unfold GetSample at h
    unfold PopSample
    cases hq : b._samples with
    | nil => simp [hq] at h
    | cons front rest =>
      simp only [hq, List.head?_cons, Option.some.injEq] at h
      subst h
      exact sub64_le_of_le hle
  · intro samples b' hp hle
    cases hb : b._segment_boundaries with
    | nil => simp [PopSamplesUntilSegmentBoundary, hb] at hp
    | cons boundary rest =>
      rw [PopSamplesUntilSegmentBoundary_eq b boundary rest hb] at hp
      simp only [Option.some.injEq, Prod.mk.injEq] at hp
      rw [← hp.2]
      simp only [GetDurationUntilSegmentBoundaryUs, hb] at hle
      exact sub64_le_of_le hle

/-- C12, amended, at `exampleBuffer` (20 us available): adding 3 us, popping the
front sample of 9 us, popping up to the boundary of 9 us. -/
theorem C12_available_monotone_without_wrap_witness :
    exampleBuffer.MarkSegmentBoundary.GetTotalAvailableDurationUs
      = exampleBuffer.GetTotalAvailableDurationUs ∧
    exampleBuffer.GetTotalAvailableDurationUs
      ≤ (exampleBuffer.AddSample (sampleOf 3)).GetTotalAvailableDurationUs ∧
    (SampleBuffer.new usTrack).PopSample.2.GetTotalAvailableDurationUs
      = (SampleBuffer.new usTrack).GetTotalAvailableDurationUs ∧
    exampleBuffer.PopSample.2.GetTotalAvailableDurationUs
      ≤ exampleBuffer.GetTotalAvailableDurationUs ∧
    exampleBufferPopped.GetTotalAvailableDurationUs
      ≤ exampleBuffer.GetTotalAvailableDurationUs :=
  ⟨(C12_available_monotone_without_wrap exampleBuffer).1,
   (C12_available_monotone_without_wrap exampleBuffer).2.1 (sampleOf 3) (by decide),
   (C12_available_monotone_without_wrap (SampleBuffer.new usTrack)).2.2.1 rfl,
   (C12_available_monotone_without_wrap exampleBuffer).2.2.2.1 (sampleOf 9) rfl (by decide),
   (C12_available_monotone_without_wrap exampleBuffer).2.2.2.2 [sampleOf 9] exampleBufferPopped
     rfl (by decide)⟩

/-! ## The sample buffer: what a mark does -/

/-- C13: for every buffer, `MarkSegmentBoundary` appends one marker at the tail of
the boundary queue, holding the since-last-mark sample count and duration; after
it `GetCurrentDurationUs` and the since-last-mark sample count are 0; the sample
queue, the earlier markers, `GetTotalAvailableDurationUs`,
`GetTotalConsumedDurationUs` and the remaining fields are unchanged. -/
theorem C13_mark_appends_one_marker (b : SampleBuffer) :
    b.MarkSegmentBoundary._segment_boundaries =
      b._segment_boundaries ++
        [{ sample_count := b._current_samples_count, duration_us := b.GetCurrentDurationUs }] ∧
    b.MarkSegmentBoundary.GetSegmentBoundaryCount = b.GetSegmentBoundaryCount + 1 ∧
    b.MarkSegmentBoundary.HasSegmentBoundary = true ∧
    b.MarkSegmentBoundary.GetCurrentDurationUs = 0 ∧
    b.MarkSegmentBoundary._current_samples_count = 0 ∧
    b.MarkSegmentBoundary._samples = b._samples ∧
    b.MarkSegmentBoundary._segment_boundaries.take b._segment_boundaries.length
      = b._segment_boundaries ∧
    b.MarkSegmentBoundary.GetTotalAvailableDurationUs = b.GetTotalAvailableDurationUs ∧
    b.MarkSegmentBoundary.GetTotalConsumedDurationUs = b.GetTotalConsumedDurationUs ∧
    b.MarkSegmentBoundary._total_available_count = b._total_available_count ∧
    b.MarkSegmentBoundary._total_consumed_samples_count = b._total_consumed_samples_count := by
  refine ⟨rfl, ?_, ?_, rfl, rfl, rfl, ?_, rfl, rfl, rfl, rfl⟩
  · simp [MarkSegmentBoundary, GetSegmentBoundaryCount]
  · simp [MarkSegmentBoundary, HasSegmentBoundary]
  · simp [MarkSegmentBoundary]

/-! ## The sample buffer: a marker that counts more than the queue holds -/

/-- C15: for every buffer with a pending marker, with `n` the count of the oldest
marker and `q` the number of queued samples, `PopSamplesUntilSegmentBoundary`
returns the first `min n q` queued samples in queue order, leaves the rest of the
queue, and removes the oldest marker and no other; when `n > q` the result is the
whole queue and the queue is left empty. -/
theorem C15_pop_takes_min (b : SampleBuffer) (boundary : SegmentBoundary)
    (rest : List SegmentBoundary) (hb : b._segment_boundaries = boundary :: rest) :
    ∃ samples b', b.PopSamplesUntilSegmentBoundary = some (samples, b') ∧
      samples = b._samples.take (min boundary.sample_count b._samples.length) ∧
      b'._samples = b._samples.drop (min boundary.sample_count b._samples.length) ∧
      b._samples = samples ++ b'._samples ∧
      b'._segment_boundaries = rest ∧
      (b._samples.length < boundary.sample_count → samples = b._samples ∧ b'._samples = []) := by
  refine ⟨_, _, PopSamplesUntilSegmentBoundary_eq b boundary rest hb, ?_, ?_, ?_, rfl, ?_⟩
  · rcases Nat.le_total boundary.sample_count b._samples.length with h | h
    · rw [Nat.min_eq_left h]
    · rw [Nat.min_eq_right h, List.take_of_length_le h, List.take_of_length_le (Nat.le_refl _)]
  · show List.drop boundary.sample_count b._samples = _
    rcases Nat.le_total boundary.sample_count b._samples.length with h | h
    · rw [Nat.min_eq_left h]
    · rw [Nat.min_eq_right h, List.drop_of_length_le h, List.drop_of_length_le (Nat.le_refl _)]
  · exact (List.take_append_drop _ _).symm
  · intro h
    exact ⟨List.take_of_length_le (Nat.le_of_lt h), List.drop_of_length_le (Nat.le_of_lt h)⟩

/-- C15 at `shortBuffer`: the marker records two samples, one is queued; the pop
returns that one sample, empties the queue and removes the marker. -/
theorem C15_pop_takes_min_witness :
    shortBuffer._segment_boundaries = [{ sample_count := 2, duration_us := 12 }] ∧
    shortBuffer._samples = [sampleOf 7] ∧
    ∃ samples b', shortBuffer.PopSamplesUntilSegmentBoundary = some (samples, b') ∧
      samples = shortBuffer._samples.take (min 2 shortBuffer._samples.length) ∧
      b'._samples = shortBuffer._samples.drop (min 2 shortBuffer._samples.length) ∧
      shortBuffer._samples = samples ++ b'._samples ∧
      b'._segment_boundaries = [] ∧
      (shortBuffer._samples.length < 2 → samples = shortBuffer._samples ∧ b'._samples = []) :=
  ⟨by decide, by decide,
   C15_pop_takes_min shortBuffer { sample_count := 2, duration_us := 12 } [] rfl⟩

/-! ## The sample buffer: available plus consumed -/

theorem add64_conserve (a c d acc : Nat) (h : (a + c) % U64 = acc % U64) :
    (add64 a d + c) % U64 = (acc + d) % U64 := by
  unfold add64 U64 at *
  omega

theorem move64_conserve (a c d acc : Nat) (h : (a + c) % U64 = acc % U64) :
    (sub64 a d + add64 c d) % U64 = acc % U64 := by
  unfold sub64 add64 U64 at *
  omega

/-- Every call keeps available plus consumed equal, modulo `2^64`, to the duration
added so far. -/
theorem conservation_run (track : MediaTrack) (ops : List Op) :
    ∀ (b b' : SampleBuffer) (acc : Nat) (outs : List (List Sample)), b._track = track →
      (b._total_available_duration_us + b._total_consumed_samples_duration_us) % U64
        = acc % U64 →
      run b ops = some (b', outs) →
      (b'._total_available_duration_us + b'._total_consumed_samples_duration_us) % U64
        = (acc + totalDurationUs track (addedSamples ops)) % U64 := by
  induction ops with
  | nil =>
    intro b b' acc outs _ h hr
    simp only [run, Option.some.injEq, Prod.mk.injEq] at hr
    rw [← hr.1]
    simpa [addedSamples, totalDurationUs_nil] using h
  | cons op ops ih =>
    intro b b' acc outs ht h hr
    obtain ⟨b1, out, outs1, hs, hr1, -⟩ := run_cons_some hr
    have ht1 : b1._track = track := (step_track hs).trans ht
    cases op with
    | AddSample sample =>
      simp only [step, Option.some.injEq, Prod.mk.injEq] at hs
      have h1 : (b1._total_available_duration_us + b1._total_consumed_samples_duration_us) % U64
          = (acc + (SampleBuffer.new track).GetSampleDurationUs sample) % U64 := by
        rw [← hs.1]
        simp only [AddSample, GetSampleDurationUs_of_track ht]
        exact add64_conserve _ _ _ _ h
      have := ih b1 b' _ outs1 ht1 h1 hr1
      rw [this, addedSamples, totalDurationUs_cons, Nat.add_assoc]
    | MarkSegmentBoundary =>
      simp only [step, Option.some.injEq, Prod.mk.injEq] at hs
      have h1 : (b1._total_available_duration_us + b1._total_consumed_samples_duration_us) % U64
          = acc % U64 := by
        rw [← hs.1]
        exact h
      simpa [addedSamples] using ih b1 b' _ outs1 ht1 h1 hr1
    | PopSample =>
      simp only [step, Option.some.injEq, Prod.mk.injEq] at hs
      have h1 : (b1._total_available_duration_us + b1._total_consumed_samples_duration_us) % U64
          = acc % U64 := by
        rw [← hs.1]
        unfold PopSample
        cases b._samples with
        | nil => exact h
        | cons sample rest => exact move64_conserve _ _ _ _ h
      simpa [addedSamples] using ih b1 b' _ outs1 ht1 h1 hr1
    | PopSamplesUntilSegmentBoundary =>
      simp only [step] at hs
      have h1 : (b1._total_available_duration_us + b1._total_consumed_samples_duration_us) % U64
          = acc % U64 := by
        cases hb : b._segment_boundaries with
        | nil => simp [PopSamplesUntilSegmentBoundary, hb] at hs
        | cons boundary rest =>
          rw [PopSamplesUntilSegmentBoundary_eq b boundary rest hb] at hs
          simp only [Option.some.injEq, Prod.mk.injEq] at hs
          rw [← hs.1]
          exact move64_conserve _ _ _ _ h
      simpa [addedSamples] using ih b1 b' _ outs1 ht1 h1 hr1

/-- C16: after every sequence of `AddSample`, `MarkSegmentBoundary`, `PopSample` and
`PopSamplesUntilSegmentBoundary` calls on a fresh buffer (the last only with a
marker pending), `GetTotalAvailableDurationUs + GetTotalConsumedDurationUs`
equals, modulo `2^64`, the sum of `GetSampleDurationUs` over all samples added. -/
theorem C16_available_plus_consumed (track : MediaTrack) (ops : List Op) (b : SampleBuffer)
    (outs : List (List Sample)) (hrun : run (SampleBuffer.new track) ops = some (b, outs)) :
    (b.GetTotalAvailableDurationUs + b.GetTotalConsumedDurationUs) % U64 =
      totalDurationUs track (addedSamples ops) % U64 := by
  have := conservation_run track ops (SampleBuffer.new track) b 0 outs rfl rfl hrun
  simpa [GetTotalAvailableDurationUs, GetTotalConsumedDurationUs] using this

/-- C16 at `mixedOps`, which interleaves `PopSample` with a pending marker: 3 us
available, 10 us consumed, 13 us added. -/
theorem C16_available_plus_consumed_witness :
    run (SampleBuffer.new usTrack) mixedOps = some (mixedBuffer, [[sampleOf 1]]) ∧
    totalDurationUs usTrack (addedSamples mixedOps) = 13 ∧
    (mixedBuffer.GetTotalAvailableDurationUs + mixedBuffer.GetTotalConsumedDurationUs) % U64 =
      totalDurationUs usTrack (addedSamples mixedOps) % U64 :=
  ⟨rfl, by decide, C16_available_plus_consumed usTrack mixedOps mixedBuffer [[sampleOf 1]] rfl⟩

/-! ## The sample buffer: the available total and the queue -/

theorem sub64_prefix (x y : Nat) : sub64 ((x + y) % U64) (x % U64) = y % U64 := by
  unfold sub64 U64
  omega

theorem DurTracks_new (track : MediaTrack) : DurTracks track (SampleBuffer.new track) [] [] :=
  ⟨Tracks_new track, rfl, rfl, rfl, rfl⟩

theorem DurTracks_AddSample {track : MediaTrack} {b : SampleBuffer}
    {pending : List (List Sample)} {cur : List Sample} (h : DurTracks track b pending cur)
    (sample : Sample) (hcap : (b.AddSample sample)._samples.length < U64) :
    DurTracks track (b.AddSample sample) pending (cur ++ [sample]) := by
  refine ⟨Tracks_AddSample h.tracks sample hcap, h.track_eq, h.durations_eq, ?_, ?_⟩
  · rw [totalDurationUs_append, totalDurationUs_singleton]
    simp only [AddSample, GetSampleDurationUs_of_track h.track_eq, h.current_duration_eq, add64]
    exact Nat.mod_add_mod _ _ _
  · simp only [AddSample, GetSampleDurationUs_of_track h.track_eq, h.available_eq, add64]
    rw [totalDurationUs_append, totalDurationUs_singleton]
    exact Nat.mod_add_mod _ _ _

theorem DurTracks_MarkSegmentBoundary {track : MediaTrack} {b : SampleBuffer}
    {pending : List (List Sample)} {cur : List Sample} (h : DurTracks track b pending cur) :
    DurTracks track b.MarkSegmentBoundary (pending ++ [cur]) [] := by
  refine ⟨Tracks_MarkSegmentBoundary h.tracks, h.track_eq, ?_, rfl, h.available_eq⟩
  simp [MarkSegmentBoundary, h.durations_eq, h.current_duration_eq]

theorem DurTracks_PopSamplesUntilSegmentBoundary {track : MediaTrack} {b b' : SampleBuffer}
    {pending : List (List Sample)} {cur samples : List Sample}
    (h : DurTracks track b pending cur)
    (hp : b.PopSamplesUntilSegmentBoundary = some (samples, b')) :
    ∃ rest, pending = samples :: rest ∧ DurTracks track b' rest cur := by
  obtain ⟨rest, hpend, ht⟩ := Tracks_PopSamplesUntilSegmentBoundary h.tracks hp
  refine ⟨rest, hpend, ?_⟩
  have hq : b._samples = samples ++ b'._samples := by
    rw [h.tracks.samples_eq, ht.samples_eq, hpend, List.flatten_cons, List.append_assoc]
  cases hb : b._segment_boundaries with
  | nil => simp [PopSamplesUntilSegmentBoundary, hb] at hp
  | cons boundary others =>
    have hd := h.durations_eq
    rw [hb, hpend] at hd
    simp only [List.map_cons, List.cons.injEq] at hd
    have hav := h.available_eq
    rw [hq, totalDurationUs_append] at hav
    rw [PopSamplesUntilSegmentBoundary_eq b boundary others hb] at hp
    simp only [Option.some.injEq, Prod.mk.injEq] at hp
    obtain ⟨-, hb'⟩ := hp
    refine ⟨ht, ?_, ?_, ?_, ?_⟩
    · rw [← hb']; exact h.track_eq
    · rw [← hb']; exact hd.2
    · rw [← hb']; exact h.current_duration_eq
    · have h1 : b'._total_available_duration_us =
          sub64 b._total_available_duration_us boundary.duration_us := by
        rw [← hb']
      rw [h1, hav, hd.1]
      exact sub64_prefix _ _

/-- Calls other than `PopSample`, on a queue within capacity, keep `DurTracks`. -/
theorem DurTracks_run (track : MediaTrack) (ops : List Op)
    (hops : ∀ op ∈ ops, op.notPopSample = true) :
    ∀ (b b' : SampleBuffer) (pending : List (List Sample)) (cur : List Sample)
      (outs : List (List Sample)), DurTracks track b pending cur →
      withinCapacity b ops = true → run b ops = some (b', outs) →
      DurTracks track b' ((pending ++ markedGroups cur ops).drop outs.length)
        (sinceLastMark cur ops) := by
  induction ops with
  | nil =>
    intro b b' pending cur outs h _ hr
    simp only [run, Option.some.injEq, Prod.mk.injEq] at hr
    obtain ⟨rfl, rfl⟩ := hr
    simpa [markedGroups, sinceLastMark] using h
  | cons op ops ih =>
    intro b b' pending cur outs h hcap hr
    have hops' : ∀ o ∈ ops, o.notPopSample = true := fun o ho => hops o (List.mem_cons_of_mem _ ho)
    have hop := hops op (List.mem_cons_self _ _)
    obtain ⟨b1, out, outs1, hs, hr1, rfl⟩ := run_cons_some hr
    have hcap1 := withinCapacity_step hcap hs
    cases op with
    | AddSample sample =>
      simp only [step, Option.some.injEq, Prod.mk.injEq] at hs
      obtain ⟨rfl, rfl⟩ := hs
      have ht := DurTracks_AddSample h sample (withinCapacity_length hcap1)
      simpa [markedGroups, sinceLastMark] using ih hops' _ b' pending _ outs1 ht hcap1 hr1
    | MarkSegmentBoundary =>
      simp only [step, Option.some.injEq, Prod.mk.injEq] at hs
      obtain ⟨rfl, rfl⟩ := hs
      have ht := DurTracks_MarkSegmentBoundary h
      simpa [markedGroups, sinceLastMark] using ih hops' _ b' _ _ outs1 ht hcap1 hr1
    | PopSample => simp [Op.notPopSample] at hop
    | PopSamplesUntilSegmentBoundary =>
      simp only [step] at hs
      cases hp : b.PopSamplesUntilSegmentBoundary with
      | none => simp [hp] at hs
      | some p =>
        obtain ⟨samples, b2⟩ := p
        simp only [hp, Option.some.injEq, Prod.mk.injEq] at hs
        obtain ⟨rfl, rfl⟩ := hs
        obtain ⟨rest, rfl, ht⟩ := DurTracks_PopSamplesUntilSegmentBoundary h hp
        simpa [markedGroups, sinceLastMark] using ih hops' _ b' rest cur outs1 ht hcap1 hr1

theorem totalDurationUs_drop_le (track : MediaTrack) (n : Nat) (samples : List Sample) :
    totalDurationUs track (samples.drop n) ≤ totalDurationUs track samples := by
  have h := totalDurationUs_append track (samples.take n) (samples.drop n)
  rw [List.take_append_drop] at h
  omega

/-- The queue never holds more duration than was added. -/
theorem queue_duration_le_run (track : MediaTrack) (ops : List Op) :
    ∀ (b b' : SampleBuffer) (acc : Nat) (outs : List (List Sample)),
      totalDurationUs track b._samples ≤ acc → run b ops = some (b', outs) →
      totalDurationUs track b'._samples ≤ acc + totalDurationUs track (addedSamples ops) := by
  induction ops with
  | nil =>
    intro b b' acc outs h hr
    simp only [run, Option.some.injEq, Prod.mk.injEq] at hr
    rw [← hr.1]
    simpa [addedSamples, totalDurationUs_nil] using h
  | cons op ops ih =>
    intro b b' acc outs h hr
    obtain ⟨b1, out, outs1, hs, hr1, -⟩ := run_cons_some hr
    cases op with
    | AddSample sample =>
      simp only [step, Option.some.injEq, Prod.mk.injEq] at hs
      have h1 : totalDurationUs track b1._samples
          ≤ acc + (SampleBuffer.new track).GetSampleDurationUs sample := by
        rw [← hs.1]
        simp only [AddSample, totalDurationUs_append, totalDurationUs_singleton]
        omega
      have := ih b1 b' _ outs1 h1 hr1
      rw [addedSamples, totalDurationUs_cons]
      omega
    | MarkSegmentBoundary =>
      simp only [step, Option.some.injEq, Prod.mk.injEq] at hs
      have h1 : totalDurationUs track b1._samples ≤ acc := by
        rw [← hs.1]
        exact h
      simpa [addedSamples] using ih b1 b' _ outs1 h1 hr1
    | PopSample =>
      simp only [step, Option.some.injEq, Prod.mk.injEq] at hs
      have h1 : totalDurationUs track b1._samples ≤ acc := by
        rw [← hs.1]
        unfold PopSample
        cases hq : b._samples with
        | nil => simpa [hq] using h
        | cons sample rest =>
          rw [hq, totalDurationUs_cons] at h
          show totalDurationUs track rest ≤ acc
          omega
      simpa [addedSamples] using ih b1 b' _ outs1 h1 hr1
    | PopSamplesUntilSegmentBoundary =>
      simp only [step] at hs
      have h1 : totalDurationUs track b1._samples ≤ acc := by
        cases hb : b._segment_boundaries with
        | nil => simp [PopSamplesUntilSegmentBoundary, hb] at hs
        | cons boundary rest =>
          rw [PopSamplesUntilSegmentBoundary_eq b boundary rest hb] at hs
          simp only [Option.some.injEq, Prod.mk.injEq] at hs
          rw [← hs.1]
          exact Nat.le_trans (totalDurationUs_drop_le track _ _) h
      simpa [addedSamples] using ih b1 b' _ outs1 h1 hr1

/-- C17: in every buffer reached from a fresh one through `AddSample`,
`MarkSegmentBoundary` and `PopSamplesUntilSegmentBoundary` (the last only with a
marker pending) with the queue within its capacity, when the durations of all
added samples sum to less than `2^64`, `GetTotalAvailableDurationUs` is the sum
of `GetSampleDurationUs` over the samples in the queue. -/
theorem C17_available_is_queue_duration (track : MediaTrack) (ops : List Op)
    (hops : ∀ op ∈ ops, op.notPopSample = true)
    (hcap : withinCapacity (SampleBuffer.new track) ops = true)
    (hsum : totalDurationUs track (addedSamples ops) < U64)
    (b : SampleBuffer) (outs : List (List Sample))
    (hrun : run (SampleBuffer.new track) ops = some (b, outs)) :
    b.GetTotalAvailableDurationUs = totalDurationUs track b._samples := by
  have hd := DurTracks_run track ops hops _ b [] [] outs (DurTracks_new track) hcap hrun
  have hle := queue_duration_le_run track ops (SampleBuffer.new track) b 0 outs
    (Nat.le_refl _) hrun
  unfold GetTotalAvailableDurationUs
  rw [hd.available_eq]
  exact Nat.mod_eq_of_lt (by omega)

/-- C17 at `exampleOps`: 20 us available, samples of 9 us and 11 us queued. -/
theorem C17_available_is_queue_duration_witness :
    run (SampleBuffer.new usTrack) exampleOps = some (exampleBuffer, [[sampleOf 5, sampleOf 7]]) ∧
    totalDurationUs usTrack exampleBuffer._samples = 20 ∧
    exampleBuffer.GetTotalAvailableDurationUs = totalDurationUs usTrack exampleBuffer._samples :=
  ⟨rfl, by decide, C17_available_is_queue_duration usTrack exampleOps (by decide) (by decide)
    (by decide) exampleBuffer [[sampleOf 5, sampleOf 7]] rfl⟩

/-! ## The segment: building the payload -/

/-- The calls all return `true`, set the in-memory flag and append the blobs, in
order, to the payload held before. -/
theorem AddPacketDataAll_cons (data : Data) (rest : List Data) :
    ∀ seg : Segment,
      (seg.AddPacketDataAll (data :: rest)).1 = List.replicate (data :: rest).length true ∧
      (seg.AddPacketDataAll (data :: rest)).2._is_data_in_memory = true ∧
      (seg.AddPacketDataAll (data :: rest)).2._data =
        some ((match seg._data with
          | none => []
          | some d => d) ++ (data :: rest).flatten) := by
  induction rest generalizing data with
  | nil =>
    intro seg
    simp [Segment.AddPacketDataAll, Segment.AddPacketData, Data.Append, List.replicate]
  | cons next rest ih =>
    intro seg
    obtain ⟨h1, h2, h3⟩ := ih next (seg.AddPacketData data).2
    have hstep : seg.AddPacketDataAll (data :: next :: rest) =
        (true :: ((seg.AddPacketData data).2.AddPacketDataAll (next :: rest)).1,
          ((seg.AddPacketData data).2.AddPacketDataAll (next :: rest)).2) := rfl
    rw [hstep]
    refine ⟨?_, h2, ?_⟩
    · show true :: _ = _
      rw [h1]
      rfl
    · show ((seg.AddPacketData data).2.AddPacketDataAll (next :: rest)).2._data = _
      rw [h3]
      simp [Segment.AddPacketData, Data.Append, List.append_assoc]

/-- C18: for every segment that holds no payload in memory (`_data` is null, as the
constructor and `ResetData` leave it) and every non-empty list of blobs, the
calls `AddPacketData(d1)`, ..., `AddPacketData(dn)` all return `true`, after them
`IsDataInMemory` is true and `GetData` returns, without loading a file, the
concatenation `d1 ++ ... ++ dn`. -/
theorem C18_AddPacketData_concatenates (fs : FileSystem) (seg : Segment) (blobs : List Data)
    (hseg : seg._data = none) (hblobs : blobs ≠ []) :
    (seg.AddPacketDataAll blobs).1 = List.replicate blobs.length true ∧
    (seg.AddPacketDataAll blobs).2.IsDataInMemory = true ∧
    ((seg.AddPacketDataAll blobs).2.GetData fs).data = some blobs.flatten ∧
    ((seg.AddPacketDataAll blobs).2.GetData fs).loaded = [] := by
  cases blobs with
  | nil => exact absurd rfl hblobs
  | cons data rest =>
    obtain ⟨h1, h2, h3⟩ := AddPacketDataAll_cons data rest seg
    rw [hseg] at h3
    refine ⟨h1, h2, ?_, ?_⟩
    · simp only [Segment.GetData, h2, if_true]
      rw [h3]
      rfl
    · simp only [Segment.GetData, h2, if_true]

/-- C18 at `resetSegment`, whose earlier payload `[9, 9]` was released: the blobs
`[1]` and `[2, 3]` give `[1, 2, 3]`. -/
theorem C18_AddPacketData_concatenates_witness :
    resetSegment._data = none ∧
    (resetSegment.AddPacketDataAll [[1], [2, 3]]).1 = [true, true] ∧
    (resetSegment.AddPacketDataAll [[1], [2, 3]]).2.IsDataInMemory = true ∧
    ((resetSegment.AddPacketDataAll [[1], [2, 3]]).2.GetData failingFs).data
      = some [1, 2, 3] ∧
    ((resetSegment.AddPacketDataAll [[1], [2, 3]]).2.GetData failingFs).loaded = [] :=
  ⟨rfl, C18_AddPacketData_concatenates failingFs resetSegment [[1], [2, 3]] rfl (by decide)⟩

/-! ## The sample buffer: popping one sample -/

theorem add64_cast (a c : Nat) :
    ((add64 a c : Nat) : Int) = ((a : Int) + (c : Int)) % (2 ^ 64 : Int) := by
  unfold add64 U64
  omega

/-- C19, refuted as stated: `mixedBuffer` is reached through the public operations,
its front sample lasts 7 us and 3 us are available; after `PopSample`,
`GetTotalAvailableDurationUs` is `2^64 - 4`, which is not 7 less than 3. -/
theorem C19_counterexample :
    run (SampleBuffer.new usTrack) mixedOps = some (mixedBuffer, [[sampleOf 1]]) ∧
    mixedBuffer.GetSample = some (sampleOf 7) ∧
    mixedBuffer.GetSampleDurationUs (sampleOf 7) = 7 ∧
    mixedBuffer.GetTotalAvailableDurationUs = 3 ∧
    mixedBuffer.PopSample.2.GetTotalAvailableDurationUs = 2 ^ 64 - 4 :=
  ⟨rfl, by decide, by decide, by decide, by decide⟩

/-- C19, amended: for every buffer, when the sample queue is empty `PopSample`
returns the null sample and leaves the buffer as it is; when it is not empty,
`PopSample` returns the front sample, the one `GetSample` returns before the
call, removes that sample and no other, leaves the boundary queue as it is, and
`GetTotalAvailableDurationUs` becomes the old value minus the sample duration
and `GetTotalConsumedDurationUs` the old value plus the sample duration, both
in 64-bit unsigned arithmetic (modulo `2^64`). -/
theorem C19_PopSample_effect (b : SampleBuffer) :
    (b.IsEmpty = true → b.PopSample = (none, b)) ∧
    (b.IsEmpty = false → ∃ sample,
      b.GetSample = some sample ∧
      b.PopSample.1 = some sample ∧
      b._samples = sample :: b.PopSample.2._samples ∧
      b.PopSample.2._segment_boundaries = b._segment_boundaries ∧
      (b.PopSample.2.GetTotalAvailableDurationUs : Int) =
        ((b.GetTotalAvailableDurationUs : Int) - (b.GetSampleDurationUs sample : Int))
          % (2 ^ 64 : Int) ∧
      (b.PopSample.2.GetTotalConsumedDurationUs : Int) =
        ((b.GetTotalConsumedDurationUs : Int) + (b.GetSampleDurationUs sample : Int))
          % (2 ^ 64 : Int)) := by
  unfold SampleBuffer.IsEmpty PopSample GetSample
  cases hq : b._samples with
  | nil => simp
  | cons sample rest =>
    refine ⟨by simp, fun _ => ⟨sample, rfl, rfl, rfl, rfl, ?_, ?_⟩⟩
    · exact sub64_cast _ _
    · exact add64_cast _ _

/-- C19, amended, at the fresh buffer (empty queue) and at `exampleBuffer` (front
sample of 9 us). -/
theorem C19_PopSample_effect_witness :
    (SampleBuffer.new usTrack).PopSample.1 = none ∧
    ∃ sample,
      exampleBuffer.GetSample = some sample ∧
      exampleBuffer.PopSample.1 = some sample ∧
      exampleBuffer._samples = sample :: exampleBuffer.PopSample.2._samples ∧
      exampleBuffer.PopSample.2._segment_boundaries = exampleBuffer._segment_boundaries ∧
      (exampleBuffer.PopSample.2.GetTotalAvailableDurationUs : Int) =
        ((exampleBuffer.GetTotalAvailableDurationUs : Int) -
          (exampleBuffer.GetSampleDurationUs sample : Int)) % (2 ^ 64 : Int) ∧
      (exampleBuffer.PopSample.2.GetTotalConsumedDurationUs : Int) =
        ((exampleBuffer.GetTotalConsumedDurationUs : Int) +
          (exampleBuffer.GetSampleDurationUs sample : Int)) % (2 ^ 64 : Int) :=
  ⟨congrArg Prod.fst ((C19_PopSample_effect (SampleBuffer.new usTrack)).1 rfl),
   (C19_PopSample_effect exampleBuffer).2 rfl⟩

/-! ## The sample duration in double precision -/

namespace Binary64

/-- The doubles nearest to 1/10 and 1/3 are `0x1.999999999999Ap-4` and
`0x1.5555555555555p-2`. -/
theorem nearest_tenth_and_third :
    nearest false 1 10 = { negative := false, mant := 0x1999999999999A, exp := -56 } ∧
    nearest false 1 3 = { negative := false, mant := 0x15555555555555, exp := -54 } := by
  decide

theorem log2Aux_spec : ∀ (fuel n : Nat), n ≤ fuel → 0 < n →
    2 ^ log2Aux fuel n ≤ n ∧ n < 2 ^ (log2Aux fuel n + 1) := by
  intro fuel
  induction fuel with
  | zero => intro n h1 h2; omega
  | succ fuel ih =>
    intro n h1 h2
    unfold log2Aux
    by_cases hn : n < 2
    · simp only [hn, if_true]
      omega
    · simp only [hn, if_false]
      obtain ⟨h3, h4⟩ := ih (n / 2) (by omega) (by omega)
      rw [Nat.pow_succ] at h4 ⊢
      rw [Nat.pow_succ]
      constructor <;> omega

theorem log2_spec (n : Nat) (h : 0 < n) : 2 ^ log2 n ≤ n ∧ n < 2 ^ (log2 n + 1) :=
  log2Aux_spec n n (Nat.le_refl n) h

/-- A positive number below `2^b` has its leading bit below position `b`. -/
theorem log2_lt_of_lt {n b : Nat} (h : 0 < n) (hb : n < 2 ^ b) : log2 n < b := by
  have h1 := (log2_spec n h).1
  by_contra hc
  have h2 : 2 ^ b ≤ 2 ^ log2 n := Nat.pow_le_pow_right (by decide) (by omega)
  omega

theorem roundHalfEven_ge (n d : Nat) : n / d ≤ roundHalfEven n d := by
  unfold roundHalfEven
  split_ifs <;> omega

/-- Rounding to nearest never goes more than half a unit up. -/
theorem roundHalfEven_le (n d : Nat) (hd : 0 < d) :
    2 * (d * roundHalfEven n d) ≤ 2 * n + d := by
  have h := Nat.div_add_mod n d
  have hr := Nat.mod_lt n hd
  unfold roundHalfEven
  split_ifs with h1 h2 h3
  · omega
  · rw [Nat.mul_add]; omega
  · omega
  · rw [Nat.mul_add]; omega

theorem roundHalfEven_mul (y c : Nat) (hc : 0 < c) : roundHalfEven (y * c) c = y := by
  unfold roundHalfEven
  rw [Nat.mul_mod_left, Nat.mul_div_cancel _ hc]
  simp [hc]


/-- An integer below `2^53`, given as a fraction `x * c / c`, rounds to itself. -/
theorem nearest_exact (negative : Bool) (x c : Nat) (hx : 0 < x) (hx53 : x < 2 ^ 53)
    (hc : 0 < c) :
    ∃ k, (nearest negative (x * c) c).num = x * 2 ^ k ∧ (nearest negative (x * c) c).den = 2 ^ k ∧
      (nearest negative (x * c) c).negative = negative := by
  have hl := log2_lt_of_lt hx hx53
  have hn : x * c ≠ 0 := Nat.ne_of_gt (Nat.mul_pos hx hc)
  have hle : c ≤ x * c := Nat.le_mul_of_pos_left c hx
  have hfl : floorLog2 (x * c) c = (log2 x : Int) := by
    unfold floorLog2
    rw [if_pos hle, Nat.mul_div_cancel _ hc]
  have he1 : ((log2 x : Int) - 52).toNat = 0 := by omega
  have he2 : (-((log2 x : Int) - 52)).toNat = 52 - log2 x := by omega
  refine ⟨52 - log2 x, ?_, ?_, ?_⟩
  · simp only [nearest, if_neg hn, num, hfl, he1, he2, Nat.pow_zero, Nat.mul_one]
    rw [Nat.mul_right_comm]
    exact roundHalfEven_mul _ c hc
  · simp only [nearest, if_neg hn, den, hfl, he2]
  · simp only [nearest, if_neg hn]

/-- The heart of the matter: with `K` fraction bits and a divisor below `2^(K+1)`,
the rounded quotient truncates to the integer quotient. -/
theorem roundHalfEven_div (c a t K : Nat) (hc : 0 < c) (ht : 0 < t) (hK : t < 2 ^ (K + 1)) :
    roundHalfEven (c * a * 2 ^ K) (c * t) / 2 ^ K = a / t := by
  have hP : 0 < 2 ^ K := Nat.two_pow_pos K
  have hD : 0 < c * t := Nat.mul_pos hc ht
  have hdm := Nat.div_add_mod a t
  have hr := Nat.mod_lt a ht
  apply Nat.le_antisymm
  · -- upper bound
    have hup := roundHalfEven_le (c * a * 2 ^ K) (c * t) hD
    rw [← Nat.lt_succ_iff, Nat.div_lt_iff_lt_mul hP]
    by_contra hcon
    have hcon : (a / t + 1) * 2 ^ K ≤ roundHalfEven (c * a * 2 ^ K) (c * t) := Nat.le_of_not_lt hcon
    have h1 : 2 * (c * t * ((a / t + 1) * 2 ^ K)) ≤ 2 * (c * a * 2 ^ K) + c * t :=
      Nat.le_trans (Nat.mul_le_mul_left 2 (Nat.mul_le_mul_left (c * t) hcon)) hup
    have h2 : c * (2 * (t * ((a / t + 1) * 2 ^ K))) ≤ c * (2 * (a * 2 ^ K) + t) := by
      calc c * (2 * (t * ((a / t + 1) * 2 ^ K))) = 2 * (c * t * ((a / t + 1) * 2 ^ K)) := by ring
        _ ≤ 2 * (c * a * 2 ^ K) + c * t := h1
        _ = c * (2 * (a * 2 ^ K) + t) := by ring
    have h3 := Nat.le_of_mul_le_mul_left h2 hc
    have h4 : (a % t + 1) * 2 ^ K ≤ t * 2 ^ K := Nat.mul_le_mul_right _ hr
    have h5 : 2 ^ (K + 1) = 2 * 2 ^ K := by rw [Nat.pow_succ, Nat.mul_comm]
    have h6 : t * ((a / t + 1) * 2 ^ K) = t * (a / t) * 2 ^ K + t * 2 ^ K := by ring
    have h7 : a * 2 ^ K = t * (a / t) * 2 ^ K + a % t * 2 ^ K := by
      conv_lhs => rw [← hdm]
      ring
    have h8 : (a % t + 1) * 2 ^ K = a % t * 2 ^ K + 2 ^ K := by ring
    rw [h6, h7] at h3
    rw [h8] at h4
    omega
  · -- lower bound
    rw [Nat.le_div_iff_mul_le hP]
    refine Nat.le_trans ?_ (roundHalfEven_ge _ _)
    rw [Nat.le_div_iff_mul_le hD]
    calc a / t * 2 ^ K * (c * t) = c * (t * (a / t)) * 2 ^ K := by ring
      _ ≤ c * a * 2 ^ K :=
        Nat.mul_le_mul_right _ (Nat.mul_le_mul_left c (by omega))


/-- The quotient of `a < 2^53` by a positive integer `t`, both scaled by `c`, rounds
to a double that truncates to `a / t`. -/
theorem nearest_quotient (c a t : Nat) (hc : 0 < c) (ht : 0 < t) (ha : 0 < a)
    (ha53 : a < 2 ^ 53) :
    (nearest false (c * a) (c * t)).negative = false ∧
    (nearest false (c * a) (c * t)).num / (nearest false (c * a) (c * t)).den = a / t := by
  have hn : c * a ≠ 0 := Nat.ne_of_gt (Nat.mul_pos hc ha)
  have key : ∃ K, (floorLog2 (c * a) (c * t) - 52).toNat = 0 ∧
      (-(floorLog2 (c * a) (c * t) - 52)).toNat = K ∧ t < 2 ^ (K + 1) := by
    unfold floorLog2
    by_cases hle : c * t ≤ c * a
    · have hta : t ≤ a := Nat.le_of_mul_le_mul_left hle hc
      have hq : 0 < a / t := Nat.div_pos hta ht
      have hq53 : a / t < 2 ^ 53 := Nat.lt_of_le_of_lt (Nat.div_le_self a t) ha53
      have hl := log2_lt_of_lt hq hq53
      have hs := (log2_spec (a / t) hq).1
      rw [if_pos hle, Nat.mul_div_mul_left _ _ hc]
      refine ⟨52 - log2 (a / t), by omega, by omega, ?_⟩
      have h1 : 2 ^ log2 (a / t) * t ≤ a :=
        Nat.le_trans (Nat.mul_le_mul_right t hs) (Nat.div_mul_le_self a t)
      have h2 : 2 ^ log2 (a / t) * 2 ^ (52 - log2 (a / t) + 1) = 2 ^ 53 := by
        have hsum : log2 (a / t) + (52 - log2 (a / t) + 1) = 53 := by omega
        rw [← Nat.pow_add, hsum]
      by_contra hcon
      have h3 : 2 ^ log2 (a / t) * 2 ^ (52 - log2 (a / t) + 1) ≤ 2 ^ log2 (a / t) * t :=
        Nat.mul_le_mul_left _ (Nat.le_of_not_lt hcon)
      omega
    · have hlt : c * a < c * t := Nat.lt_of_not_le hle
      have hpos : 0 < c * a := Nat.mul_pos hc ha
      have hq : 0 < (c * t - 1) / (c * a) := Nat.div_pos (by omega) hpos
      have hs := (log2_spec _ hq).2
      rw [if_neg hle]
      refine ⟨log2 ((c * t - 1) / (c * a)) + 53, by omega, by omega, ?_⟩
      rw [Nat.div_lt_iff_lt_mul hpos] at hs
      have h1 : c * t ≤ c * (2 ^ (log2 ((c * t - 1) / (c * a)) + 1) * a) := by
        calc c * t ≤ 2 ^ (log2 ((c * t - 1) / (c * a)) + 1) * (c * a) := by omega
          _ = c * (2 ^ (log2 ((c * t - 1) / (c * a)) + 1) * a) := by ring
      have h2 := Nat.le_of_mul_le_mul_left h1 hc
      have h3 : 2 ^ (log2 ((c * t - 1) / (c * a)) + 1) * a
          < 2 ^ (log2 ((c * t - 1) / (c * a)) + 1) * 2 ^ 53 :=
        Nat.mul_lt_mul_of_pos_left ha53 (Nat.two_pow_pos _)
      have h4 : 2 ^ (log2 ((c * t - 1) / (c * a)) + 53 + 1)
          = 2 ^ (log2 ((c * t - 1) / (c * a)) + 1) * 2 ^ 53 := by
        have hsum : log2 ((c * t - 1) / (c * a)) + 53 + 1
            = log2 ((c * t - 1) / (c * a)) + 1 + 53 := by omega
        rw [← Nat.pow_add, hsum]
      omega
  obtain ⟨K, he1, he2, hK⟩ := key
  constructor
  · simp only [nearest, if_neg hn]
  · simp only [nearest, if_neg hn, num, den, he1, he2, Nat.pow_zero, Nat.mul_one]
    exact roundHalfEven_div c a t K hc ht hK

theorem num_ofNatExact (n : Nat) : (ofNatExact n).num = n := by
  simp [ofNatExact, num]

theorem den_ofNatExact (n : Nat) : (ofNatExact n).den = 1 := by
  simp [ofNatExact, den]

theorem negative_ofNatExact (n : Nat) : (ofNatExact n).negative = false := rfl

/-- For a duration `d >= 0` with `d * 1000000 < 2^53` and a positive integer time
scale, every step of the double-precision expression is exact up to the last
rounding, and the conversion gives the integer quotient. -/
theorem scaleToUsBinary64_eq (t : Nat) (d : Int) (hd : 0 ≤ d) (hprod : d * 1000000 < 2 ^ 53)
    (ht : 0 < t) : scaleToUsBinary64 t d = some (d.toNat * 1000000 / t) := by
  have ht0 : t ≠ 0 := Nat.ne_of_gt ht
  have hneg : decide (d < 0) = false := by simpa using hd
  unfold scaleToUsBinary64
  rw [if_neg ht0]
  rcases Nat.eq_zero_or_pos d.toNat with h0 | hpos
  · have hd0 : d.natAbs = 0 := by omega
    simp [ofInt, mul, div, nearest, toUInt64, num, den, ofNatExact, hd0, h0]
  · have hx : d.natAbs = d.toNat := by omega
    have ha53 : d.toNat * 1000000 < 2 ^ 53 := by omega
    have hx53 : d.toNat < 2 ^ 53 := by omega
    have hapos : 0 < d.toNat * 1000000 := by omega
    obtain ⟨k1, hn1, hd1, hs1⟩ := nearest_exact false d.toNat 1 hpos hx53 (by decide)
    rw [Nat.mul_one] at hn1 hd1 hs1
    obtain ⟨k2, hn2, hd2, hs2⟩ :=
      nearest_exact false (d.toNat * 1000000) (2 ^ k1) hapos ha53 (Nat.two_pow_pos k1)
    obtain ⟨hs3, hq3⟩ :=
      nearest_quotient (2 ^ k2) (d.toNat * 1000000) t (Nat.two_pow_pos k2) ht hapos ha53
    have hof : ofInt d = nearest false d.toNat 1 := by
      simp only [ofInt, hneg, hx]
    have hmul : (ofInt d).mul (ofNatExact 1000000)
        = nearest false (d.toNat * 1000000 * 2 ^ k1) (2 ^ k1) := by
      simp only [mul, hof, hn1, hd1, hs1, num_ofNatExact, den_ofNatExact, negative_ofNatExact,
        Nat.mul_one, bne_self_eq_false]
      rw [Nat.mul_right_comm]
    have hdiv : ((ofInt d).mul (ofNatExact 1000000)).div (ofNatExact t)
        = nearest false (2 ^ k2 * (d.toNat * 1000000)) (2 ^ k2 * t) := by
      rw [hmul]
      simp only [div, hn2, hd2, hs2, num_ofNatExact, den_ofNatExact, negative_ofNatExact,
        Nat.mul_one, bne_self_eq_false]
      rw [Nat.mul_comm (d.toNat * 1000000) (2 ^ k2)]
    rw [hdiv]
    unfold toUInt64
    simp only [hs3, hq3, Bool.false_and, Bool.false_eq_true, if_false]
    have hq : d.toNat * 1000000 / t < 2 ^ 64 :=
      Nat.lt_of_le_of_lt (Nat.div_le_self _ _) (by omega)
    rw [if_neg (by omega)]

end Binary64

/-- On durations `d >= 0` with `d * 1000000 < 2^53` the track of time scale 1000000
is `usTrack`. -/
theorem binary64Track_1000000_eq_usTrack (d : Int) (hd : 0 ≤ d) (hprod : d * 1000000 < 2 ^ 53) :
    (binary64Track 1000000).scaleToUs d = usTrack.scaleToUs d := by
  have h := Binary64.scaleToUsBinary64_eq 1000000 d hd hprod (by decide)
  simp only [binary64Track, usTrack, h, Option.getD_some]
  exact Nat.mul_div_cancel _ (by decide)

set_option maxRecDepth 4000 in
/-- The track of time scale 1000000 is `usTrack` also on the duration `2^62` of
`longSamples`. -/
theorem binary64Track_1000000_eq_usTrack_long :
    (SampleBuffer.new (binary64Track 1000000)).GetSampleDurationUs (sampleOf (2 ^ 62)) =
      (SampleBuffer.new usTrack).GetSampleDurationUs (sampleOf (2 ^ 62)) := by
  decide

/-- C14, refuted as stated: on the track of time scale 1000000 a sample of duration
`2^53 + 1` gives 9007199254740992, one less than the floor (the conversion to
double rounds the duration); on the track of time scale 3 a sample of duration
`2^34 + 1`, itself exact as a double, gives 5726623061666667, one more than the
floor (the product with 1000000 is rounded). -/
theorem C14_counterexample :
    (SampleBuffer.new (binary64Track 1000000)).GetSampleDurationUs (sampleOf (2 ^ 53 + 1))
      = 9007199254740992 ∧
    (2 ^ 53 + 1) * 1000000 / 1000000 = 9007199254740993 ∧
    (SampleBuffer.new (binary64Track 3)).GetSampleDurationUs (sampleOf (2 ^ 34 + 1))
      = 5726623061666667 ∧
    (2 ^ 34 + 1) * 1000000 / 3 = 5726623061666666 := by
  decide

/-- C14, amended: for every sample whose frame duration `d` is a non-negative integer
with `d * 1000000 < 2^53` and every buffer whose track has a positive integer time
scale `t`, the double-precision expression converts to `uint64_t` without
undefined behaviour and `GetSampleDurationUs` returns `floor(d * 1000000 / t)`. -/
theorem C14_duration_is_floor_below_2_53 (t : Nat) (b : SampleBuffer) (sample : Sample)
    (htrack : b.GetTrack = binary64Track t)
    (hd : 0 ≤ sample.media_packet.duration)
    (hprod : sample.media_packet.duration * 1000000 < 2 ^ 53) (ht : 0 < t) :
    scaleToUsBinary64 t sample.media_packet.duration
      = some (sample.media_packet.duration.toNat * 1000000 / t) ∧
    b.GetSampleDurationUs sample = sample.media_packet.duration.toNat * 1000000 / t := by
  have h := Binary64.scaleToUsBinary64_eq t sample.media_packet.duration hd hprod ht
  refine ⟨h, ?_⟩
  simp only [GetSampleDurationUs, htrack, binary64Track, h, Option.getD_some]
  apply Nat.mod_eq_of_lt
  have h1 : sample.media_packet.duration.toNat * 1000000 / t
      ≤ sample.media_packet.duration.toNat * 1000000 := Nat.div_le_self _ _
  unfold U64
  omega

/-- C14, amended, at a frame of 3003 ticks on a 90 kHz track: 33366 us. -/
theorem C14_duration_is_floor_below_2_53_witness :
    scaleToUsBinary64 90000 (sampleOf 3003).media_packet.duration
      = some ((sampleOf 3003).media_packet.duration.toNat * 1000000 / 90000) ∧
    (SampleBuffer.new (binary64Track 90000)).GetSampleDurationUs (sampleOf 3003)
      = (sampleOf 3003).media_packet.duration.toNat * 1000000 / 90000 :=
  C14_duration_is_floor_below_2_53 90000 (SampleBuffer.new (binary64Track 90000)) (sampleOf 3003)
    rfl (by decide) (by decide) (by decide)

end mpegts
